import Mathlib

/-!
Shallow embedding of the mesh-generation core of the Python-Gravity-Sim
repository: the vector math kernel and polyhedron generation with spherical
subdivision (src/meshes/polyhedronGeo.py), parametric surface generation
(src/meshes/parametricGeo.py), and the mesh-buffer transform operation
(src/meshes/mesh_data.py).  Python floats are modelled as real numbers,
Python lists as Lean lists, and the midpoint cache dictionary as an
association list.
-/

namespace Mesh

/-- A 3-component vector of reals, embedding the Python 3-element lists used
for positions, colors and normals. -/
@[ext]
structure Vec3 where
  x : ℝ
  y : ℝ
  z : ℝ

/-- The zero vector, used as the out-of-range default for list indexing. -/
def zeroV : Vec3 := ⟨0, 0, 0⟩

instance : Inhabited Vec3 := ⟨zeroV⟩

/-- Vector length: `math.sqrt(sum(coord * coord for coord in vector))` in
`PolyhedronGeometry.normalize`, and `np.linalg.norm` in the numpy code. -/
noncomputable def vlen (v : Vec3) : ℝ := Real.sqrt (v.x * v.x + v.y * v.y + v.z * v.z)

/-- `PolyhedronGeometry.normalize`: returns the input unchanged when its
length is below `1e-8`, otherwise divides each coordinate by the length. -/
noncomputable def normalize (v : Vec3) : Vec3 :=
  if vlen v < 1e-8 then v else ⟨v.x / vlen v, v.y / vlen v, v.z / vlen v⟩

/-- `PolyhedronGeometry.cross_product`. -/
noncomputable def cross_product (a b : Vec3) : Vec3 :=
  ⟨a.y * b.z - a.z * b.y, a.z * b.x - a.x * b.z, a.x * b.y - a.y * b.x⟩

/-- `PolyhedronGeometry.dot_product`. -/
noncomputable def dot_product (a b : Vec3) : ℝ := a.x * b.x + a.y * b.y + a.z * b.z

/-- `PolyhedronGeometry.midpoint`: componentwise average `(a + b) / 2`. -/
noncomputable def midpoint (a b : Vec3) : Vec3 :=
  ⟨(a.x + b.x) / 2, (a.y + b.y) / 2, (a.z + b.z) / 2⟩

/-- Componentwise difference, embedding list comprehensions such as
`[v1[i] - v0[i] for i in range(3)]`. -/
noncomputable def vsub (a b : Vec3) : Vec3 := ⟨a.x - b.x, a.y - b.y, a.z - b.z⟩

/-- Componentwise scalar division `v / c`. -/
noncomputable def vdiv (v : Vec3) (c : ℝ) : Vec3 := ⟨v.x / c, v.y / c, v.z / c⟩

/-- Componentwise sum. -/
noncomputable def vadd (a b : Vec3) : Vec3 := ⟨a.x + b.x, a.y + b.y, a.z + b.z⟩

/-- A triangular face: a 3-element list of vertex indices. -/
abbrev Face := ℕ × ℕ × ℕ

/-- The midpoint cache: a Python dict from canonical edge keys to vertex
indices, embedded as an association list. -/
abbrev Cache := List ((ℕ × ℕ) × ℕ)

/-- `smaller, larger = sorted((v1_idx, v2_idx)); key = (smaller, larger)`
in `get_midpoint_index`. -/
def ekey (i j : ℕ) : ℕ × ℕ := if i ≤ j then (i, j) else (j, i)

/-- Dictionary lookup `midpoint_cache[key]` (with the `key in midpoint_cache`
test). -/
def cacheLookup (c : Cache) (k : ℕ × ℕ) : Option ℕ :=
  match c.find? (fun p => p.1 == k) with
  | some p => some p.2
  | none => none

/-- `get_midpoint_index` in `PolyhedronGeometry.subdivide_faces`: returns the
cached midpoint index for the canonical edge key, or appends the normalized
midpoint of the two endpoint vertices (taken from the original `vertices`
list) to the accumulated vertex list and records its index in the cache. -/
noncomputable def get_midpoint_index (vertices : List Vec3) (st : List Vec3 × Cache)
    (i j : ℕ) : (List Vec3 × Cache) × ℕ :=
  match cacheLookup st.2 (ekey i j) with
  | some idx => (st, idx)
  | none =>
    let m := normalize (midpoint (vertices.getD i zeroV) (vertices.getD j zeroV))
    ((st.1 ++ [m], st.2 ++ [(ekey i j, st.1.length)]), st.1.length)

/-- The `for face in faces` loop of `subdivide_faces`: for each triangle
`(v1, v2, v3)` it obtains midpoint indices `a`, `b`, `c` of the edges
`(v1,v2)`, `(v2,v3)`, `(v3,v1)` and emits the four triangles
`(v1,a,c)`, `(v2,b,a)`, `(v3,c,b)`, `(a,b,c)`. -/
noncomputable def subdivideAux (vertices : List Vec3) (st : List Vec3 × Cache) :
    List Face → (List Vec3 × Cache) × List Face
  | [] => (st, [])
  | f :: rest =>
    let r1 := get_midpoint_index vertices st f.1 f.2.1
    let r2 := get_midpoint_index vertices r1.1 f.2.1 f.2.2
    let r3 := get_midpoint_index vertices r2.1 f.2.2 f.1
    let rE := subdivideAux vertices r3.1 rest
    (rE.1, (f.1, r1.2, r3.2) :: (f.2.1, r2.2, r1.2) :: (f.2.2, r3.2, r2.2) ::
      (r1.2, r2.2, r3.2) :: rE.2)

/-- `PolyhedronGeometry.subdivide_faces`: one subdivision pass over all
faces, starting from a copy of the vertex list and an empty midpoint
cache. -/
noncomputable def subdivide_faces (vertices : List Vec3) (faces : List Face) :
    List Vec3 × List Face :=
  let r := subdivideAux vertices (vertices, []) faces
  (r.1.1, r.2)

/-- The `for _ in range(subdivisions)` loop of `PolyhedronGeometry.__init__`:
the subdivision pass applied sequentially `n` times. -/
noncomputable def subdivideN (vertices : List Vec3) (faces : List Face) :
    ℕ → List Vec3 × List Face
  | 0 => (vertices, faces)
  | n + 1 =>
    let p := subdivideN vertices faces n
    subdivide_faces p.1 p.2

/-! ### Base polyhedron catalog (`PolyhedronGeometry.get_base_polyhedron`) -/

/-- Tetrahedron vertex table, with `t = (1.0 + math.sqrt(2.0)) / 2.0`. -/
noncomputable def tetraVertices : List Vec3 :=
  let t := (1 + Real.sqrt 2) / 2
  [⟨-1, -t, 0⟩, ⟨1, -t, 0⟩, ⟨0, 1, t⟩, ⟨0, 1, -t⟩]

/-- Tetrahedron face table. -/
def tetraFaces : List Face := [(2, 1, 0), (2, 3, 1), (0, 3, 2), (1, 3, 0)]

/-- Octahedron vertex table. -/
noncomputable def octaVertices : List Vec3 :=
  [⟨1, 0, 0⟩, ⟨-1, 0, 0⟩, ⟨0, 1, 0⟩, ⟨0, -1, 0⟩, ⟨0, 0, 1⟩, ⟨0, 0, -1⟩]

/-- Octahedron face table. -/
def octaFaces : List Face :=
  [(4, 0, 2), (4, 2, 1), (4, 1, 3), (4, 3, 0),
   (5, 2, 0), (5, 1, 2), (5, 3, 1), (5, 0, 3)]

/-- Cube vertex table. -/
noncomputable def cubeVertices : List Vec3 :=
  [⟨-1, -1, -1⟩, ⟨1, -1, -1⟩, ⟨1, 1, -1⟩, ⟨-1, 1, -1⟩,
   ⟨-1, -1, 1⟩, ⟨1, -1, 1⟩, ⟨1, 1, 1⟩, ⟨-1, 1, 1⟩]

/-- Cube face table (two triangles per side). -/
def cubeFaces : List Face :=
  [(0, 2, 1), (0, 3, 2),
   (4, 5, 7), (5, 6, 7),
   (0, 4, 7), (0, 7, 3),
   (1, 2, 6), (1, 6, 5),
   (3, 7, 6), (3, 6, 2),
   (0, 1, 5), (0, 5, 4)]

/-- Icosahedron vertex table, with `t = (1.0 + math.sqrt(5.0)) / 2.0`. -/
noncomputable def icosaVertices : List Vec3 :=
  let t := (1 + Real.sqrt 5) / 2
  [⟨-1, t, 0⟩, ⟨1, t, 0⟩, ⟨-1, -t, 0⟩, ⟨1, -t, 0⟩,
   ⟨0, -1, t⟩, ⟨0, 1, t⟩, ⟨0, -1, -t⟩, ⟨0, 1, -t⟩,
   ⟨t, 0, -1⟩, ⟨t, 0, 1⟩, ⟨-t, 0, -1⟩, ⟨-t, 0, 1⟩]

/-- Icosahedron face table. -/
def icosaFaces : List Face :=
  [(0, 11, 5), (0, 5, 1), (0, 1, 7), (0, 7, 10), (0, 10, 11),
   (1, 5, 9), (5, 11, 4), (11, 10, 2), (10, 7, 6), (7, 1, 8),
   (3, 9, 4), (3, 4, 2), (3, 2, 6), (3, 6, 8), (3, 8, 9),
   (4, 9, 5), (2, 4, 11), (6, 2, 10), (8, 6, 7), (9, 8, 1)]

/-- Dodecahedron vertex table (decimal literals from the source). -/
noncomputable def dodecaVertices : List Vec3 :=
  [⟨0, 0, 1.070466⟩, ⟨0.7136442, 0, 0.7978784⟩, ⟨-0.3568221, 0.618034, 0.7978784⟩,
   ⟨-0.3568221, -0.618034, 0.7978784⟩, ⟨0.7978784, 0.618034, 0.3568221⟩,
   ⟨0.7978784, -0.618034, 0.3568221⟩, ⟨-0.9341724, 0.381966, 0.3568221⟩,
   ⟨0.1362939, 1, 0.3568221⟩, ⟨0.1362939, -1, 0.3568221⟩,
   ⟨-0.9341724, -0.381966, 0.3568221⟩, ⟨0.9341724, 0.381966, -0.3568221⟩,
   ⟨0.9341724, -0.381966, -0.3568221⟩, ⟨-0.7978784, 0.618034, -0.3568221⟩,
   ⟨-0.1362939, 1, -0.3568221⟩, ⟨-0.1362939, -1, -0.3568221⟩,
   ⟨-0.7978784, -0.618034, -0.3568221⟩, ⟨0.3568221, 0.618034, -0.7978784⟩,
   ⟨0.3568221, -0.618034, -0.7978784⟩, ⟨-0.7136442, 0, -0.7978784⟩,
   ⟨0, 0, -1.070466⟩]

/-- The 12 pentagonal faces of the dodecahedron. -/
def dodecaPentagons : List (ℕ × ℕ × ℕ × ℕ × ℕ) :=
  [(0, 1, 4, 7, 2), (0, 2, 6, 9, 3), (0, 3, 8, 5, 1),
   (1, 5, 11, 10, 4), (2, 7, 13, 12, 6), (3, 9, 15, 14, 8),
   (4, 10, 16, 13, 7), (5, 8, 14, 17, 11), (6, 12, 18, 15, 9),
   (10, 11, 17, 19, 16), (12, 13, 16, 19, 18), (14, 15, 18, 19, 17)]

/-- Dodecahedron face table: each pentagon fan-triangulated from its first
vertex into 3 triangles. -/
def dodecaFaces : List Face :=
  dodecaPentagons.flatMap (fun p =>
    [(p.1, p.2.1, p.2.2.1), (p.1, p.2.2.1, p.2.2.2.1), (p.1, p.2.2.2.1, p.2.2.2.2)])

/-- `PolyhedronGeometry.get_base_polyhedron`: dispatch on the solid
identifier; unknown identifiers raise `ValueError`, embedded as
`Except.error` carrying the message. -/
noncomputable def get_base_polyhedron (polyhedron_type : String) :
    Except String (List Vec3 × List Face) :=
  if polyhedron_type = "tetrahedron" then .ok (tetraVertices, tetraFaces)
  else if polyhedron_type = "octahedron" then .ok (octaVertices, octaFaces)
  else if polyhedron_type = "cube" then .ok (cubeVertices, cubeFaces)
  else if polyhedron_type = "icosahedron" then .ok (icosaVertices, icosaFaces)
  else if polyhedron_type = "dodecahedron" then .ok (dodecaVertices, dodecaFaces)
  else .error "Polyhedron type must be 'tetrahedron', 'octahedron', 'cube', 'icosahedron', or 'dodecahedron'"

/-! ### The polyhedron generation pipeline (`PolyhedronGeometry.__init__`) -/

/-- The face-normal computation shared by `calculate_vertex_normals` and the
face-normal loop in `PolyhedronGeometry.__init__`: normalized cross product
of the edges from `v0`, flipped if it points toward the origin (negative dot
product with the face centroid). -/
noncomputable def outward_face_normal (v0 v1 v2 : Vec3) : Vec3 :=
  let normal := normalize (cross_product (vsub v1 v0) (vsub v2 v0))
  let center : Vec3 := ⟨(v0.x + v1.x + v2.x) / 3, (v0.y + v1.y + v2.y) / 3,
    (v0.z + v1.z + v2.z) / 3⟩
  if dot_product center normal < 0 then ⟨-normal.x, -normal.y, -normal.z⟩ else normal

/-- One iteration of the accumulation loop of `calculate_vertex_normals`:
adds the face's outward normal into the running normal of each of its three
vertices and increments their counts. -/
noncomputable def accumFace (vertices : List Vec3) (acc : List Vec3 × List ℕ)
    (f : Face) : List Vec3 × List ℕ :=
  let fn := outward_face_normal (vertices.getD f.1 zeroV) (vertices.getD f.2.1 zeroV)
    (vertices.getD f.2.2 zeroV)
  let step := fun (a : List Vec3 × List ℕ) (i : ℕ) =>
    (a.1.set i (vadd (a.1.getD i zeroV) fn), a.2.set i (a.2.getD i 0 + 1))
  step (step (step acc f.1) f.2.1) f.2.2

/-- `PolyhedronGeometry.calculate_vertex_normals`: accumulate outward face
normals per vertex, then average and normalize (falling back to the
normalized position for vertices used by no face). -/
noncomputable def calculate_vertex_normals (vertices : List Vec3) (faces : List Face) :
    List Vec3 :=
  let acc := faces.foldl (accumFace vertices)
    (vertices.map (fun _ => zeroV), vertices.map (fun _ => 0))
  (List.range vertices.length).map (fun i =>
    let c := acc.2.getD i 0
    if 0 < c then
      normalize (vdiv (acc.1.getD i zeroV) c)
    else
      normalize (vertices.getD i zeroV))

/-- `math.atan2`, modelled piecewise by quadrant from `Real.arctan`. -/
noncomputable def atan2 (y x : ℝ) : ℝ :=
  if 0 < x then Real.arctan (y / x)
  else if x < 0 then
    (if 0 ≤ y then Real.arctan (y / x) + Real.pi else Real.arctan (y / x) - Real.pi)
  else if 0 < y then Real.pi / 2
  else if y < 0 then -(Real.pi / 2)
  else 0

/-- `PolyhedronGeometry.calculate_uv`: spherical projection
`u = 0.5 + atan2(x, z) / (2π)`, `v = 0.5 + asin(y) / π`. -/
noncomputable def calculate_uv (v : Vec3) : ℝ × ℝ :=
  (0.5 + atan2 v.x v.z / (2 * Real.pi), 0.5 + Real.arcsin v.y / Real.pi)

/-- The color palette `[C1, C2, C3, C4, C5, C6]` of
`PolyhedronGeometry.__init__`. -/
noncomputable def polyPalette : List Vec3 :=
  [⟨1, 0, 0⟩, ⟨0, 1, 0⟩, ⟨0, 0, 1⟩, ⟨0, 1, 1⟩, ⟨1, 0, 1⟩, ⟨1, 1, 0⟩]

/-- Membership test `i in face` for a triangular face. -/
def faceContains (f : Face) (i : ℕ) : Bool := f.1 == i || f.2.1 == i || f.2.2 == i

/-- The vertex-color loop of `PolyhedronGeometry.__init__`: each vertex takes
the palette color of the first face containing it (by face position modulo
the palette size), or gray `[0.7, 0.7, 0.7]` when no face contains it. -/
noncomputable def polyVertexColors (numVertices : ℕ) (faces : List Face) : List Vec3 :=
  (List.range numVertices).map (fun i =>
    match faces.findIdx? (fun f => faceContains f i) with
    | some fIdx => polyPalette.getD (fIdx % 6) zeroV
    | none => ⟨0.7, 0.7, 0.7⟩)

/-- The expanded per-face normal array of `PolyhedronGeometry.__init__`:
each face's outward-corrected normal repeated once per vertex of the face.
It is computed by the constructor but never stored in the buffer. -/
noncomputable def expanded_face_normals (vertices : List Vec3) (faces : List Face) :
    List Vec3 :=
  faces.flatMap (fun f =>
    let n := outward_face_normal (vertices.getD f.1 zeroV) (vertices.getD f.2.1 zeroV)
      (vertices.getD f.2.2 zeroV)
    [n, n, n])

/-- The mesh buffer assembled by the generators: the attribute dictionary of
`MeshData`, with the attributes the generators add.  Normal attributes are
optional, as `apply_mat` treats them. -/
structure MeshData where
  v_pos : List Vec3
  color : List Vec3
  v_uv : List (ℝ × ℝ)
  v_norm : Option (List Vec3)
  f_norm : Option (List Vec3)
  indices : List ℕ

/-- The vertex/face pair produced by normalizing the base vertices and
subdividing `n` times (`PolyhedronGeometry.__init__` before scaling). -/
noncomputable def polyPair (vs0 : List Vec3) (fs0 : List Face) (n : ℕ) :
    List Vec3 × List Face :=
  subdivideN (vs0.map normalize) fs0 n

/-- The body of `PolyhedronGeometry.__init__` after `get_base_polyhedron`:
normalize, subdivide `n` times, scale by the radius, then attach colors,
UVs, vertex normals (stored as both `v_norm` and `f_norm`) and the flattened
index array. -/
noncomputable def buildPolyhedronMesh (radius : ℝ) (n : ℕ)
    (base : List Vec3 × List Face) : MeshData :=
  let p := polyPair base.1 base.2 n
  let vertices := p.1.map (fun v => ⟨radius * v.x, radius * v.y, radius * v.z⟩)
  let faces := p.2
  let vertex_normals := calculate_vertex_normals vertices faces
  { v_pos := vertices
    color := polyVertexColors vertices.length faces
    v_uv := vertices.map (fun v => calculate_uv (normalize v))
    v_norm := some vertex_normals
    f_norm := some vertex_normals
    indices := faces.flatMap (fun f => [f.1, f.2.1, f.2.2]) }

/-- `PolyhedronGeometry(radius, polyhedron_type, subdivisions)`: the full
constructor; a `ValueError` from `get_base_polyhedron` propagates and no
mesh is produced. -/
noncomputable def PolyhedronGeometry (radius : ℝ) (polyhedron_type : String)
    (subdivisions : ℕ) : Except String MeshData :=
  (get_base_polyhedron polyhedron_type).map (buildPolyhedronMesh radius subdivisions)

/-! ### Parametric surface generation (`ParametricGeometry.__init__`) -/

/-- The arguments of `ParametricGeometry(u_min, u_max, u_segments, v_min,
v_max, v_segments, surface_fn)`. -/
structure ParamInput where
  u_min : ℝ
  u_max : ℝ
  u_segments : ℕ
  v_min : ℝ
  v_max : ℝ
  v_segments : ℕ
  surface_fn : ℝ → ℝ → Vec3

/-- `u_step = (u_max - u_min) / u_segments`. -/
noncomputable def ParamInput.u_step (P : ParamInput) : ℝ :=
  (P.u_max - P.u_min) / P.u_segments

/-- `v_step = (v_max - v_min) / v_segments`. -/
noncomputable def ParamInput.v_step (P : ParamInput) : ℝ :=
  (P.v_max - P.v_min) / P.v_segments

/-- The sampled grid `vertices[i][j] = surface_fn(u_min + i*u_step,
v_min + j*v_step)`. -/
noncomputable def gridPos (P : ParamInput) (i j : ℕ) : Vec3 :=
  P.surface_fn (P.u_min + i * P.u_step) (P.v_min + j * P.v_step)

/-- The flattened `vertex_positions` array: the grid in row-major order,
rows indexed by `u_idx`. -/
noncomputable def paramPositions (P : ParamInput) : List Vec3 :=
  (List.range (P.u_segments + 1)).flatMap (fun i =>
    (List.range (P.v_segments + 1)).map (fun j => gridPos P i j))

/-- The flattened `vertex_uvs` array: `[i / u_segments, j / v_segments]`. -/
noncomputable def paramUVs (P : ParamInput) : List (ℝ × ℝ) :=
  (List.range (P.u_segments + 1)).flatMap (fun (i : ℕ) =>
    (List.range (P.v_segments + 1)).map (fun (j : ℕ) =>
      ((i : ℝ) / P.u_segments, (j : ℝ) / P.v_segments)))

/-- The parametric color palette `colors` (order differs from the polyhedron
palette). -/
noncomputable def paramPalette : List Vec3 :=
  [⟨1, 0, 0⟩, ⟨0, 1, 0⟩, ⟨0, 0, 1⟩, ⟨1, 1, 0⟩, ⟨0, 1, 1⟩, ⟨1, 0, 1⟩]

/-- The flattened `vertex_colors` array: `colors[(u_idx + v_idx) % 6]`. -/
noncomputable def paramColors (P : ParamInput) : List Vec3 :=
  (List.range (P.u_segments + 1)).flatMap (fun i =>
    (List.range (P.v_segments + 1)).map (fun j =>
      paramPalette.getD ((i + j) % 6) zeroV))

/-- `calculate_surface_normal`: central-difference partial derivatives with
step `h` of the parameter step, cross product, with the documented
degenerate fallbacks. -/
noncomputable def calculate_surface_normal (P : ParamInput) (u v h : ℝ) : Vec3 :=
  let du := h * P.u_step
  let dv := h * P.v_step
  let p_center := P.surface_fn u v
  let du_vector := vdiv (vsub (P.surface_fn (u + du) v) (P.surface_fn (u - du) v)) (2 * du)
  let dv_vector := vdiv (vsub (P.surface_fn u (v + dv)) (P.surface_fn u (v - dv))) (2 * dv)
  let normal := cross_product du_vector dv_vector
  if vlen normal < 1e-8 then
    (if 1e-8 < vlen p_center then vdiv p_center (vlen p_center) else ⟨0, 1, 0⟩)
  else vdiv normal (vlen normal)

/-- The flattened `vertex_normals` array: `calculate_surface_normal` at each
grid parameter pair with `h = 0.01`. -/
noncomputable def paramVertexNormals (P : ParamInput) : List Vec3 :=
  (List.range (P.u_segments + 1)).flatMap (fun (i : ℕ) =>
    (List.range (P.v_segments + 1)).map (fun (j : ℕ) =>
      calculate_surface_normal P (P.u_min + i * P.u_step) (P.v_min + j * P.v_step) 0.01))

/-- `calculate_face_normal(p1, p2, p3)`: normalized cross product of the
edges from `p1`, with the `[0, 1, 0]` degenerate fallback. -/
noncomputable def calculate_face_normal (p1 p2 p3 : Vec3) : Vec3 :=
  let normal := cross_product (vsub p2 p1) (vsub p3 p1)
  if vlen normal < 1e-8 then ⟨0, 1, 0⟩ else vdiv normal (vlen normal)

/-- `quad_face_normals[u_idx][v_idx]`: the face normal of a grid cell,
computed from the three corners `(u_idx, v_idx)`, `(u_idx+1, v_idx)`,
`(u_idx+1, v_idx+1)`. -/
noncomputable def quadNormal (P : ParamInput) (i j : ℕ) : Vec3 :=
  calculate_face_normal (gridPos P i j) (gridPos P (i + 1) j) (gridPos P (i + 1) (j + 1))

/-- The flattened `face_normals` array: the quad normal repeated for the
three corners of each of the two triangles of each grid cell. -/
noncomputable def paramFaceNormals (P : ParamInput) : List Vec3 :=
  (List.range P.u_segments).flatMap (fun i =>
    (List.range P.v_segments).flatMap (fun j =>
      let n := quadNormal P i j
      [n, n, n, n, n, n]))

/-- The `indices` array: for each grid cell the two triangles
`(i0, i1, i2)` and `(i0, i2, i3)` over the row-major corner indices. -/
def paramIndices (u_segments v_segments : ℕ) : List ℕ :=
  (List.range u_segments).flatMap (fun i =>
    (List.range v_segments).flatMap (fun j =>
      let i0 := i * (v_segments + 1) + j
      let i1 := (i + 1) * (v_segments + 1) + j
      let i2 := (i + 1) * (v_segments + 1) + (j + 1)
      let i3 := i * (v_segments + 1) + (j + 1)
      [i0, i1, i2, i0, i2, i3]))

/-- `ParametricGeometry.__init__`: the assembled mesh buffer. -/
noncomputable def ParametricGeometry (P : ParamInput) : MeshData :=
  { v_pos := paramPositions P
    color := paramColors P
    v_uv := paramUVs P
    v_norm := some (paramVertexNormals P)
    f_norm := some (paramFaceNormals P)
    indices := paramIndices P.u_segments P.v_segments }

/-! ### `MeshData.apply_mat` (src/meshes/mesh_data.py) -/

/-- A 4x4 transformation matrix, row by row. -/
structure Mat4 where
  m00 : ℝ
  m01 : ℝ
  m02 : ℝ
  m03 : ℝ
  m10 : ℝ
  m11 : ℝ
  m12 : ℝ
  m13 : ℝ
  m20 : ℝ
  m21 : ℝ
  m22 : ℝ
  m23 : ℝ
  m30 : ℝ
  m31 : ℝ
  m32 : ℝ
  m33 : ℝ

/-- The position transform `(matrix @ homo.T).T[:, :3]`: each position is
extended with 1, multiplied by the matrix, and the first three rows kept. -/
noncomputable def transformPoint (m : Mat4) (p : Vec3) : Vec3 :=
  ⟨m.m00 * p.x + m.m01 * p.y + m.m02 * p.z + m.m03,
   m.m10 * p.x + m.m11 * p.y + m.m12 * p.z + m.m13,
   m.m20 * p.x + m.m21 * p.y + m.m22 * p.z + m.m23⟩

/-- Determinant of the upper-left 3x3 block `matrix[:3, :3]`; it is zero
exactly when `np.linalg.inv` raises `LinAlgError`. -/
noncomputable def det3 (m : Mat4) : ℝ :=
  m.m00 * (m.m11 * m.m22 - m.m12 * m.m21)
    - m.m01 * (m.m10 * m.m22 - m.m12 * m.m20)
    + m.m02 * (m.m10 * m.m21 - m.m11 * m.m20)

/-- Application of `np.linalg.inv(mat33).T` to a normal: the cofactor matrix
of the 3x3 block divided by its determinant. -/
noncomputable def normalTransform (m : Mat4) (n : Vec3) : Vec3 :=
  let d := det3 m
  ⟨((m.m11 * m.m22 - m.m12 * m.m21) * n.x
      - (m.m10 * m.m22 - m.m12 * m.m20) * n.y
      + (m.m10 * m.m21 - m.m11 * m.m20) * n.z) / d,
   (-(m.m01 * m.m22 - m.m02 * m.m21) * n.x
      + (m.m00 * m.m22 - m.m02 * m.m20) * n.y
      - (m.m00 * m.m21 - m.m01 * m.m20) * n.z) / d,
   ((m.m01 * m.m12 - m.m02 * m.m11) * n.x
      - (m.m00 * m.m12 - m.m02 * m.m10) * n.y
      + (m.m00 * m.m11 - m.m01 * m.m10) * n.z) / d⟩

/-- The renormalization step: divide by the euclidean norm when it exceeds
`1e-8`, else leave the normal as transformed. -/
noncomputable def renormalize (n : Vec3) : Vec3 :=
  if 1e-8 < vlen n then vdiv n (vlen n) else n

/-- `MeshData.apply_mat` (called with the default `variable_name="v_pos"`,
which generated buffers always carry): positions are transformed first;
then, if the 3x3 block is invertible, present normal attributes are
transformed by the inverse transpose and renormalized.  When the block is
singular, `np.linalg.inv` raises `LinAlgError`, the handler only logs, and
the normals keep their old values — positions stay transformed. -/
noncomputable def apply_mat (m : Mat4) (d : MeshData) : MeshData :=
  let pos' := d.v_pos.map (transformPoint m)
  if det3 m = 0 then
    { d with v_pos := pos' }
  else
    { d with
      v_pos := pos'
      v_norm := d.v_norm.map (fun l => l.map (fun n => renormalize (normalTransform m n)))
      f_norm := d.f_norm.map (fun l => l.map (fun n => renormalize (normalTransform m n))) }

/-! ### Lemmas about the midpoint cache and one subdivision pass -/

/-- The canonical edge keys contributed by one face, in processing order. -/
def faceKeys (f : Face) : List (ℕ × ℕ) :=
  [ekey f.1 f.2.1, ekey f.2.1 f.2.2, ekey f.2.2 f.1]

/-- First-occurrence deduplication, appending the unseen elements of the
second list to the first in order: the set of keys the cache holds after
processing a list of edge keys. -/
def dedupApp : List (ℕ × ℕ) → List (ℕ × ℕ) → List (ℕ × ℕ)
  | seen, [] => seen
  | seen, k :: ks => dedupApp (if k ∈ seen then seen else seen ++ [k]) ks

theorem dedupApp_append (l₁ l₂ : List (ℕ × ℕ)) :
    ∀ seen, dedupApp seen (l₁ ++ l₂) = dedupApp (dedupApp seen l₁) l₂ := by
  induction l₁ with
  | nil => intro seen; rfl
  | cons k ks ih =>
    intro seen
    simp only [List.cons_append, dedupApp]
    exact ih _

theorem mem_dedupApp (a : ℕ × ℕ) (l : List (ℕ × ℕ)) :
    ∀ seen, a ∈ dedupApp seen l ↔ a ∈ seen ∨ a ∈ l := by
  induction l with
  | nil => intro seen; simp [dedupApp]
  | cons k ks ih =>
    intro seen
    by_cases hk : k ∈ seen
    · rw [dedupApp, if_pos hk, ih]
      constructor
      · rintro (h | h)
        · exact Or.inl h
        · exact Or.inr (List.mem_cons_of_mem _ h)
      · rintro (h | h)
        · exact Or.inl h
        · rcases List.mem_cons.mp h with h | h
          · exact Or.inl (h ▸ hk)
          · exact Or.inr h
    · rw [dedupApp, if_neg hk, ih]
      simp only [List.mem_append, List.mem_singleton, List.mem_cons]
      tauto

theorem nodup_dedupApp (l : List (ℕ × ℕ)) :
    ∀ seen, seen.Nodup → (dedupApp seen l).Nodup := by
  induction l with
  | nil => intro seen h; exact h
  | cons k ks ih =>
    intro seen h
    by_cases hk : k ∈ seen
    · rw [dedupApp, if_pos hk]; exact ih seen h
    · rw [dedupApp, if_neg hk]
      refine ih _ ?_
      simp [List.nodup_append, h, hk]

theorem length_dedupApp_le (l : List (ℕ × ℕ)) :
    ∀ seen, (dedupApp seen l).length ≤ seen.length + l.length := by
  induction l with
  | nil => intro seen; simp [dedupApp]
  | cons k ks ih =>
    intro seen
    by_cases hk : k ∈ seen
    · rw [dedupApp, if_pos hk]
      calc (dedupApp seen ks).length ≤ seen.length + ks.length := ih seen
        _ ≤ seen.length + (k :: ks).length := by simp [Nat.le_succ]
    · rw [dedupApp, if_neg hk]
      calc (dedupApp (seen ++ [k]) ks).length ≤ (seen ++ [k]).length + ks.length :=
          ih (seen ++ [k])
        _ = seen.length + (k :: ks).length := by simp; omega

/-- The deduplicated key list has the same distinct elements as the raw key
list, hence its length is the number of distinct keys. -/
theorem length_dedupApp_eq_card (l : List (ℕ × ℕ)) :
    (dedupApp [] l).length = l.toFinset.card := by
  have hnd : (dedupApp [] l).Nodup := nodup_dedupApp l [] List.nodup_nil
  have hset : (dedupApp [] l).toFinset = l.toFinset := by
    ext a
    simp [List.mem_toFinset, mem_dedupApp]
  rw [← List.toFinset_card_of_nodup hnd, hset]

theorem cacheLookup_none_iff (c : Cache) (k : ℕ × ℕ) :
    cacheLookup c k = none ↔ k ∉ c.map Prod.fst := by
  unfold cacheLookup
  cases h : c.find? (fun p => p.1 == k) with
  | none =>
    refine iff_of_true rfl ?_
    rw [List.find?_eq_none] at h
    intro hmem
    rcases List.mem_map.mp hmem with ⟨p, hp, hpk⟩
    exact absurd (by simp [hpk]) (h p hp)
  | some p =>
    refine iff_of_false (by simp) ?_
    intro hn
    have hpk : p.1 = k := by simpa using List.find?_some h
    exact hn (List.mem_map.mpr ⟨p, List.mem_of_find?_eq_some h, hpk⟩)

theorem cacheLookup_some_mem {c : Cache} {k : ℕ × ℕ} {idx : ℕ}
    (h : cacheLookup c k = some idx) : (k, idx) ∈ c := by
  unfold cacheLookup at h
  cases hf : c.find? (fun p => p.1 == k) with
  | none => rw [hf] at h; exact absurd h (by simp)
  | some p =>
    rw [hf] at h
    have hpk : p.1 = k := by simpa using List.find?_some hf
    have hpm := List.mem_of_find?_eq_some hf
    have : p = (k, idx) := by
      cases p
      simp only [Option.some.injEq] at h
      simp_all
    exact this ▸ hpm

/-- The normalized midpoint of an edge depends only on the canonical key. -/
theorem midpoint_ekey (vertices : List Vec3) (i j : ℕ) :
    normalize (midpoint (vertices.getD (ekey i j).1 zeroV) (vertices.getD (ekey i j).2 zeroV))
      = normalize (midpoint (vertices.getD i zeroV) (vertices.getD j zeroV)) := by
  have hcomm : ∀ a b : Vec3, midpoint a b = midpoint b a := by
    intro a b
    unfold midpoint
    ext <;> dsimp <;> ring
  unfold ekey
  split
  · rfl
  · rw [hcomm]

/-- Invariant of the subdivision state: the accumulated vertex list extends
the original one, its length exceeds the original by the cache size, and
every cache entry points at an in-range vertex holding the normalized
midpoint of the entry's edge. -/
def StInv (vertices : List Vec3) (st : List Vec3 × Cache) : Prop :=
  (∃ t, st.1 = vertices ++ t) ∧
  st.1.length = vertices.length + st.2.length ∧
  (∀ p ∈ st.2, p.2 < st.1.length ∧
    st.1.getD p.2 zeroV =
      normalize (midpoint (vertices.getD p.1.1 zeroV) (vertices.getD p.1.2 zeroV)))

theorem stInv_init (vertices : List Vec3) : StInv vertices (vertices, []) := by
  refine ⟨⟨[], by simp⟩, by simp, ?_⟩
  intro p hp
  exact absurd hp (List.not_mem_nil p)

/-- `get_midpoint_index` preserves the state invariant, only appends to the
vertex list, returns an in-range index, and that index holds the normalized
midpoint of the requested edge. -/
theorem gmi_spec (vertices : List Vec3) (st : List Vec3 × Cache) (i j : ℕ)
    (h : StInv vertices st) :
    StInv vertices (get_midpoint_index vertices st i j).1 ∧
    (∃ t, (get_midpoint_index vertices st i j).1.1 = st.1 ++ t) ∧
    (get_midpoint_index vertices st i j).2 < (get_midpoint_index vertices st i j).1.1.length ∧
    (get_midpoint_index vertices st i j).1.1.getD (get_midpoint_index vertices st i j).2 zeroV
      = normalize (midpoint (vertices.getD i zeroV) (vertices.getD j zeroV)) := by
  obtain ⟨hext, hlen, hent⟩ := h
  unfold get_midpoint_index
  cases hl : cacheLookup st.2 (ekey i j) with
  | some idx =>
    simp only
    have hmem := cacheLookup_some_mem hl
    have hidx := hent _ hmem
    refine ⟨⟨hext, hlen, hent⟩, ⟨[], by simp⟩, hidx.1, ?_⟩
    have := hidx.2
    rw [this]
    exact midpoint_ekey vertices i j
  | none =>
    simp only
    set m := normalize (midpoint (vertices.getD i zeroV) (vertices.getD j zeroV)) with hm
    constructor
    · refine ⟨?_, ?_, ?_⟩
      · obtain ⟨t, ht⟩ := hext
        exact ⟨t ++ [m], by simp [ht]⟩
      · simp [hlen, Nat.add_assoc]
      · intro p hp
        rcases List.mem_append.mp hp with hp | hp
        · have hold := hent p hp
          constructor
          · calc p.2 < st.1.length := hold.1
              _ ≤ (st.1 ++ [m]).length := by simp
          · rw [List.getD_append _ _ _ _ hold.1]
            exact hold.2
        · have hpe : p = (ekey i j, st.1.length) := List.mem_singleton.mp hp
          subst hpe
          constructor
          · simp
          · rw [List.getD_append_right _ _ _ _ (Nat.le_refl _)]
            simp only [Nat.sub_self, List.getD]
            rw [hm]
            simpa using (midpoint_ekey vertices i j).symm
    · refine ⟨⟨[m], rfl⟩, by simp, ?_⟩
      rw [List.getD_append_right _ _ _ _ (Nat.le_refl _)]
      simp [hm]

/-- `get_midpoint_index` updates the cache's key list by first-occurrence
insertion of the requested edge key. -/
theorem gmi_keys (vertices : List Vec3) (st : List Vec3 × Cache) (i j : ℕ) :
    ((get_midpoint_index vertices st i j).1.2).map Prod.fst =
      dedupApp (st.2.map Prod.fst) [ekey i j] := by
  unfold get_midpoint_index
  cases hl : cacheLookup st.2 (ekey i j) with
  | some idx =>
    have hmem : ekey i j ∈ st.2.map Prod.fst :=
      List.mem_map.mpr ⟨(ekey i j, idx), cacheLookup_some_mem hl, rfl⟩
    simp [dedupApp, hmem]
  | none =>
    have hmem : ekey i j ∉ st.2.map Prod.fst := (cacheLookup_none_iff _ _).mp hl
    simp [dedupApp, hmem]

/-- The subdivision loop preserves the state invariant and only appends to
the vertex list. -/
theorem subAux_inv (vertices : List Vec3) :
    ∀ (faces : List Face) (st : List Vec3 × Cache), StInv vertices st →
      StInv vertices (subdivideAux vertices st faces).1 ∧
      ∃ t, (subdivideAux vertices st faces).1.1 = st.1 ++ t := by
  intro faces
  induction faces with
  | nil =>
    intro st h
    exact ⟨h, ⟨[], by simp [subdivideAux]⟩⟩
  | cons f rest ih =>
    intro st h
    have g1 := gmi_spec vertices st f.1 f.2.1 h
    have g2 := gmi_spec vertices (get_midpoint_index vertices st f.1 f.2.1).1 f.2.1 f.2.2 g1.1
    have g3 := gmi_spec vertices
      (get_midpoint_index vertices (get_midpoint_index vertices st f.1 f.2.1).1 f.2.1 f.2.2).1
      f.2.2 f.1 g2.1
    have hE := ih _ g3.1
    constructor
    · simp only [subdivideAux]
      exact hE.1
    · obtain ⟨t1, e1⟩ := g1.2.1
      obtain ⟨t2, e2⟩ := g2.2.1
      obtain ⟨t3, e3⟩ := g3.2.1
      obtain ⟨tE, eE⟩ := hE.2
      refine ⟨t1 ++ (t2 ++ (t3 ++ tE)), ?_⟩
      simp only [subdivideAux]
      rw [eE, e3, e2, e1]
      simp [List.append_assoc]

/-- Each face contributes exactly four faces to the output. -/
theorem subAux_length_faces (vertices : List Vec3) :
    ∀ (faces : List Face) (st : List Vec3 × Cache),
      (subdivideAux vertices st faces).2.length = 4 * faces.length := by
  intro faces
  induction faces with
  | nil => intro st; simp [subdivideAux]
  | cons f rest ih =>
    intro st
    simp only [subdivideAux, List.length_cons]
    rw [ih]
    ring

/-- After the loop, the cache keys are the first-occurrence deduplication of
all edge keys of the processed faces. -/
theorem subAux_keys (vertices : List Vec3) :
    ∀ (faces : List Face) (st : List Vec3 × Cache),
      ((subdivideAux vertices st faces).1.2).map Prod.fst =
        dedupApp (st.2.map Prod.fst) (faces.flatMap faceKeys) := by
  intro faces
  induction faces with
  | nil => intro st; simp [subdivideAux, dedupApp]
  | cons f rest ih =>
    intro st
    simp only [subdivideAux, List.flatMap_cons]
    rw [ih, dedupApp_append]
    congr 1
    rw [show faceKeys f = [ekey f.1 f.2.1] ++ [ekey f.2.1 f.2.2] ++ [ekey f.2.2 f.1] from rfl,
      dedupApp_append, dedupApp_append,
      ← gmi_keys vertices st f.1 f.2.1,
      ← gmi_keys vertices (get_midpoint_index vertices st f.1 f.2.1).1 f.2.1 f.2.2,
      ← gmi_keys vertices
        (get_midpoint_index vertices (get_midpoint_index vertices st f.1 f.2.1).1 f.2.1 f.2.2).1
        f.2.2 f.1]

theorem length_le_of_eq_append {α : Type} {l₂ l₁ t : List α} (h : l₂ = l₁ ++ t) :
    l₁.length ≤ l₂.length := by
  subst h
  simp

/-- If every input face references valid original vertices, every output
face references valid positions in the output vertex list. -/
theorem subAux_bounds (vertices : List Vec3) :
    ∀ (faces : List Face) (st : List Vec3 × Cache), StInv vertices st →
      (∀ f ∈ faces,
        f.1 < vertices.length ∧ f.2.1 < vertices.length ∧ f.2.2 < vertices.length) →
      ∀ g ∈ (subdivideAux vertices st faces).2,
        g.1 < (subdivideAux vertices st faces).1.1.length ∧
        g.2.1 < (subdivideAux vertices st faces).1.1.length ∧
        g.2.2 < (subdivideAux vertices st faces).1.1.length := by
  intro faces
  induction faces with
  | nil =>
    intro st _ _ g hg
    exact absurd hg (by simp [subdivideAux])
  | cons f rest ih =>
    intro st hinv hfaces
    have g1 := gmi_spec vertices st f.1 f.2.1 hinv
    have g2 := gmi_spec vertices (get_midpoint_index vertices st f.1 f.2.1).1 f.2.1 f.2.2 g1.1
    have g3 := gmi_spec vertices
      (get_midpoint_index vertices (get_midpoint_index vertices st f.1 f.2.1).1 f.2.1 f.2.2).1
      f.2.2 f.1 g2.1
    have hE := subAux_inv vertices rest _ g3.1
    obtain ⟨t2, e2⟩ := g2.2.1
    obtain ⟨t3, e3⟩ := g3.2.1
    obtain ⟨tE, eE⟩ := hE.2
    have hf := hfaces f (List.mem_cons_self f rest)
    -- chain of length bounds up to the final vertex list
    have hm3 : (get_midpoint_index vertices
        (get_midpoint_index vertices (get_midpoint_index vertices st f.1 f.2.1).1
          f.2.1 f.2.2).1 f.2.2 f.1).1.1.length ≤
        (subdivideAux vertices _ rest).1.1.length := length_le_of_eq_append eE
    have hm2 : (get_midpoint_index vertices (get_midpoint_index vertices st f.1 f.2.1).1
        f.2.1 f.2.2).1.1.length ≤ _ := le_trans (length_le_of_eq_append e3) hm3
    have hm1 : (get_midpoint_index vertices st f.1 f.2.1).1.1.length ≤ _ :=
      le_trans (length_le_of_eq_append e2) hm2
    obtain ⟨t0, e0⟩ := hinv.1
    obtain ⟨t1, e1⟩ := g1.2.1
    have hm0 := le_trans (length_le_of_eq_append
      (show (get_midpoint_index vertices st f.1 f.2.1).1.1 = vertices ++ (t0 ++ t1) by
        rw [e1, e0, List.append_assoc])) hm1
    intro g hg
    simp only [subdivideAux] at hg ⊢
    rcases List.mem_cons.mp hg with hg | hg
    · subst hg
      exact ⟨lt_of_lt_of_le hf.1 hm0, lt_of_lt_of_le g1.2.2.1 hm1,
        lt_of_lt_of_le g3.2.2.1 hm3⟩
    rcases List.mem_cons.mp hg with hg | hg
    · subst hg
      exact ⟨lt_of_lt_of_le hf.2.1 hm0, lt_of_lt_of_le g2.2.2.1 hm2,
        lt_of_lt_of_le g1.2.2.1 hm1⟩
    rcases List.mem_cons.mp hg with hg | hg
    · subst hg
      exact ⟨lt_of_lt_of_le hf.2.2 hm0, lt_of_lt_of_le g3.2.2.1 hm3,
        lt_of_lt_of_le g2.2.2.1 hm2⟩
    rcases List.mem_cons.mp hg with hg | hg
    · subst hg
      exact ⟨lt_of_lt_of_le g1.2.2.1 hm1, lt_of_lt_of_le g2.2.2.1 hm2,
        lt_of_lt_of_le g3.2.2.1 hm3⟩
    · exact ih _ g3.1 (fun f' hf' => hfaces f' (List.mem_cons_of_mem f hf')) g hg

/-- The `t`-th input face yields the block of four faces at positions
`4t .. 4t+3` of the output, wound `(v1,a,c)`, `(v2,b,a)`, `(v3,c,b)`,
`(a,b,c)`, and in the final vertex list the indices `a`, `b`, `c` hold the
normalized midpoints of the edges `(v1,v2)`, `(v2,v3)`, `(v3,v1)`. -/
theorem subAux_block (vertices : List Vec3) :
    ∀ (faces : List Face) (st : List Vec3 × Cache), StInv vertices st →
      ∀ t, t < faces.length →
      ∃ a b c,
        (((subdivideAux vertices st faces).2).drop (4 * t)).take 4 =
          [((faces.getD t (0, 0, 0)).1, a, c), ((faces.getD t (0, 0, 0)).2.1, b, a),
           ((faces.getD t (0, 0, 0)).2.2, c, b), (a, b, c)] ∧
        (subdivideAux vertices st faces).1.1.getD a zeroV =
          normalize (midpoint (vertices.getD (faces.getD t (0, 0, 0)).1 zeroV)
            (vertices.getD (faces.getD t (0, 0, 0)).2.1 zeroV)) ∧
        (subdivideAux vertices st faces).1.1.getD b zeroV =
          normalize (midpoint (vertices.getD (faces.getD t (0, 0, 0)).2.1 zeroV)
            (vertices.getD (faces.getD t (0, 0, 0)).2.2 zeroV)) ∧
        (subdivideAux vertices st faces).1.1.getD c zeroV =
          normalize (midpoint (vertices.getD (faces.getD t (0, 0, 0)).2.2 zeroV)
            (vertices.getD (faces.getD t (0, 0, 0)).1 zeroV)) := by
  intro faces
  induction faces with
  | nil =>
    intro st _ t ht
    exact absurd ht (by simp)
  | cons f rest ih =>
    intro st hinv t ht
    have g1 := gmi_spec vertices st f.1 f.2.1 hinv
    have g2 := gmi_spec vertices (get_midpoint_index vertices st f.1 f.2.1).1 f.2.1 f.2.2 g1.1
    have g3 := gmi_spec vertices
      (get_midpoint_index vertices (get_midpoint_index vertices st f.1 f.2.1).1 f.2.1 f.2.2).1
      f.2.2 f.1 g2.1
    have hE := subAux_inv vertices rest _ g3.1
    obtain ⟨t2, e2⟩ := g2.2.1
    obtain ⟨t3, e3⟩ := g3.2.1
    obtain ⟨tE, eE⟩ := hE.2
    cases t with
    | zero =>
      refine ⟨(get_midpoint_index vertices st f.1 f.2.1).2,
        (get_midpoint_index vertices (get_midpoint_index vertices st f.1 f.2.1).1
          f.2.1 f.2.2).2,
        (get_midpoint_index vertices
          (get_midpoint_index vertices (get_midpoint_index vertices st f.1 f.2.1).1
            f.2.1 f.2.2).1 f.2.2 f.1).2, ?_, ?_, ?_, ?_⟩
      · rfl
      · simp only [subdivideAux, List.getD_cons_zero]
        rw [eE, e3, e2]
        have hb2 : (get_midpoint_index vertices st f.1 f.2.1).2 <
            (((get_midpoint_index vertices st f.1 f.2.1).1.1 ++ t2) ++ t3).length :=
          lt_of_lt_of_le g1.2.2.1 (by simp)
        have hb1 : (get_midpoint_index vertices st f.1 f.2.1).2 <
            ((get_midpoint_index vertices st f.1 f.2.1).1.1 ++ t2).length :=
          lt_of_lt_of_le g1.2.2.1 (by simp)
        rw [List.getD_append _ _ _ _ hb2, List.getD_append _ _ _ _ hb1,
          List.getD_append _ _ _ _ g1.2.2.1]
        exact g1.2.2.2
      · simp only [subdivideAux, List.getD_cons_zero]
        rw [eE, e3]
        have hb1 : (get_midpoint_index vertices (get_midpoint_index vertices st f.1 f.2.1).1
            f.2.1 f.2.2).2 <
            ((get_midpoint_index vertices (get_midpoint_index vertices st f.1 f.2.1).1
              f.2.1 f.2.2).1.1 ++ t3).length :=
          lt_of_lt_of_le g2.2.2.1 (by simp)
        rw [List.getD_append _ _ _ _ hb1, List.getD_append _ _ _ _ g2.2.2.1]
        exact g2.2.2.2
      · simp only [subdivideAux, List.getD_cons_zero]
        rw [eE]
        rw [List.getD_append _ _ _ _ g3.2.2.1]
        exact g3.2.2.2
    | succ t =>
      have ht' : t < rest.length := by simpa using ht
      obtain ⟨a, b, c, hblock, ha, hb, hc⟩ := ih _ g3.1 t ht'
      refine ⟨a, b, c, ?_, ?_, ?_, ?_⟩
      · simp only [subdivideAux, List.getD_cons_succ]
        rw [show 4 * (t + 1) = 4 * t + 1 + 1 + 1 + 1 from by ring, List.drop_succ_cons,
          List.drop_succ_cons, List.drop_succ_cons, List.drop_succ_cons]
        exact hblock
      · simp only [subdivideAux, List.getD_cons_succ]
        exact ha
      · simp only [subdivideAux, List.getD_cons_succ]
        exact hb
      · simp only [subdivideAux, List.getD_cons_succ]
        exact hc

theorem subdivide_faces_length (vertices : List Vec3) (faces : List Face) :
    (subdivide_faces vertices faces).2.length = 4 * faces.length :=
  subAux_length_faces vertices faces (vertices, [])

theorem subdivideN_faces_length (vertices : List Vec3) (faces : List Face) :
    ∀ n, (subdivideN vertices faces n).2.length = faces.length * 4 ^ n := by
  intro n
  induction n with
  | zero => simp [subdivideN]
  | succ n ih =>
    show (subdivide_faces _ _).2.length = _
    rw [subdivide_faces_length, ih]
    ring

theorem length_flatMap_face (faces : List Face) :
    (faces.flatMap (fun f => [f.1, f.2.1, f.2.2])).length = 3 * faces.length := by
  induction faces with
  | nil => simp
  | cons f rest ih =>
    simp only [List.flatMap_cons, List.length_append, List.length_cons, ih]
    simp
    ring

/-! ### Claim theorems about subdivision -/

/-- C2: one subdivision pass replaces each triangle `(v1, v2, v3)` by exactly
the four triangles `(v1,a,c)`, `(v2,b,a)`, `(v3,c,b)`, `(a,b,c)`, where `a`,
`b`, `c` are the indices of the midpoints of the edges `(v1,v2)`, `(v2,v3)`,
`(v3,v1)`, each midpoint normalized onto the unit sphere before being
appended to the vertex list; with `levels == 0` subdivision is the identity,
and for larger levels the pass is applied sequentially. -/
theorem C2_subdivision_pass :
    (∀ (vertices : List Vec3) (faces : List Face),
      subdivideN vertices faces 0 = (vertices, faces)) ∧
    (∀ (vertices : List Vec3) (faces : List Face) (n : ℕ),
      subdivideN vertices faces (n + 1) =
        subdivide_faces (subdivideN vertices faces n).1 (subdivideN vertices faces n).2) ∧
    ∀ (vertices : List Vec3) (faces : List Face) (t : ℕ), t < faces.length →
      ∃ a b c,
        (((subdivide_faces vertices faces).2).drop (4 * t)).take 4 =
          [((faces.getD t (0, 0, 0)).1, a, c), ((faces.getD t (0, 0, 0)).2.1, b, a),
           ((faces.getD t (0, 0, 0)).2.2, c, b), (a, b, c)] ∧
        (subdivide_faces vertices faces).1.getD a zeroV =
          normalize (midpoint (vertices.getD (faces.getD t (0, 0, 0)).1 zeroV)
            (vertices.getD (faces.getD t (0, 0, 0)).2.1 zeroV)) ∧
        (subdivide_faces vertices faces).1.getD b zeroV =
          normalize (midpoint (vertices.getD (faces.getD t (0, 0, 0)).2.1 zeroV)
            (vertices.getD (faces.getD t (0, 0, 0)).2.2 zeroV)) ∧
        (subdivide_faces vertices faces).1.getD c zeroV =
          normalize (midpoint (vertices.getD (faces.getD t (0, 0, 0)).2.2 zeroV)
            (vertices.getD (faces.getD t (0, 0, 0)).1 zeroV)) := by
  refine ⟨fun _ _ => rfl, fun _ _ _ => rfl, ?_⟩
  intro vertices faces t ht
  exact subAux_block vertices faces (vertices, []) (stInv_init vertices) t ht

/-- Witness for C2 at a concrete one-triangle mesh. -/
theorem C2_subdivision_pass_witness :
    0 < ([((0 : ℕ), (1 : ℕ), (2 : ℕ))] : List Face).length ∧
    (∃ a b c,
      (((subdivide_faces [⟨1, 0, 0⟩, ⟨0, 1, 0⟩, ⟨0, 0, 1⟩]
          [((0 : ℕ), (1 : ℕ), (2 : ℕ))]).2).drop (4 * 0)).take 4 =
        [((([((0 : ℕ), (1 : ℕ), (2 : ℕ))] : List Face).getD 0 (0, 0, 0)).1, a, c),
         ((([((0 : ℕ), (1 : ℕ), (2 : ℕ))] : List Face).getD 0 (0, 0, 0)).2.1, b, a),
         ((([((0 : ℕ), (1 : ℕ), (2 : ℕ))] : List Face).getD 0 (0, 0, 0)).2.2, c, b),
         (a, b, c)] ∧
      (subdivide_faces [⟨1, 0, 0⟩, ⟨0, 1, 0⟩, ⟨0, 0, 1⟩]
          [((0 : ℕ), (1 : ℕ), (2 : ℕ))]).1.getD a zeroV =
        normalize (midpoint
          (([⟨1, 0, 0⟩, ⟨0, 1, 0⟩, ⟨0, 0, 1⟩] : List Vec3).getD
            (([((0 : ℕ), (1 : ℕ), (2 : ℕ))] : List Face).getD 0 (0, 0, 0)).1 zeroV)
          (([⟨1, 0, 0⟩, ⟨0, 1, 0⟩, ⟨0, 0, 1⟩] : List Vec3).getD
            (([((0 : ℕ), (1 : ℕ), (2 : ℕ))] : List Face).getD 0 (0, 0, 0)).2.1 zeroV)) ∧
      (subdivide_faces [⟨1, 0, 0⟩, ⟨0, 1, 0⟩, ⟨0, 0, 1⟩]
          [((0 : ℕ), (1 : ℕ), (2 : ℕ))]).1.getD b zeroV =
        normalize (midpoint
          (([⟨1, 0, 0⟩, ⟨0, 1, 0⟩, ⟨0, 0, 1⟩] : List Vec3).getD
            (([((0 : ℕ), (1 : ℕ), (2 : ℕ))] : List Face).getD 0 (0, 0, 0)).2.1 zeroV)
          (([⟨1, 0, 0⟩, ⟨0, 1, 0⟩, ⟨0, 0, 1⟩] : List Vec3).getD
            (([((0 : ℕ), (1 : ℕ), (2 : ℕ))] : List Face).getD 0 (0, 0, 0)).2.2 zeroV)) ∧
      (subdivide_faces [⟨1, 0, 0⟩, ⟨0, 1, 0⟩, ⟨0, 0, 1⟩]
          [((0 : ℕ), (1 : ℕ), (2 : ℕ))]).1.getD c zeroV =
        normalize (midpoint
          (([⟨1, 0, 0⟩, ⟨0, 1, 0⟩, ⟨0, 0, 1⟩] : List Vec3).getD
            (([((0 : ℕ), (1 : ℕ), (2 : ℕ))] : List Face).getD 0 (0, 0, 0)).2.2 zeroV)
          (([⟨1, 0, 0⟩, ⟨0, 1, 0⟩, ⟨0, 0, 1⟩] : List Vec3).getD
            (([((0 : ℕ), (1 : ℕ), (2 : ℕ))] : List Face).getD 0 (0, 0, 0)).1 zeroV))) :=
  ⟨by decide,
    C2_subdivision_pass.2.2 [⟨1, 0, 0⟩, ⟨0, 1, 0⟩, ⟨0, 0, 1⟩]
      [((0 : ℕ), (1 : ℕ), (2 : ℕ))] 0 (by decide)⟩

/-- Vertex count after one pass: original count plus the number of distinct
canonical edge keys. -/
theorem subdivide_faces_vertex_count :
    ∀ (vertices : List Vec3) (faces : List Face),
      (subdivide_faces vertices faces).1.length =
        vertices.length + (faces.flatMap faceKeys).toFinset.card := by
  intro vs fs
  have hinv := (subAux_inv vs fs (vs, []) (stInv_init vs)).1
  have hkeys := subAux_keys vs fs (vs, [])
  show (subdivideAux vs (vs, []) fs).1.1.length = _
  rw [hinv.2.1]
  congr 1
  calc (subdivideAux vs (vs, []) fs).1.2.length
      = ((subdivideAux vs (vs, []) fs).1.2.map Prod.fst).length := by rw [List.length_map]
    _ = (dedupApp [] (fs.flatMap faceKeys)).length := by
        rw [hkeys]
        rfl
    _ = (fs.flatMap faceKeys).toFinset.card := length_dedupApp_eq_card _

/-- C3: after one subdivision pass the vertex count equals the original
vertex count plus the number of distinct canonical (min, max) edge keys of
the input faces — one shared midpoint per unique unordered edge, never one
per face-edge occurrence. -/
theorem C3_edge_sharing :
    ∀ (vertices : List Vec3) (faces : List Face),
      (subdivide_faces vertices faces).1.length =
        vertices.length + (faces.flatMap faceKeys).toFinset.card :=
  subdivide_faces_vertex_count

/-- C4: for every solid of the catalog and every subdivision level `n`, the
face count is the base face count times `4 ^ n`, and the index array length
is three times that. -/
theorem C4_face_growth :
    ∀ (s : String) (vs0 : List Vec3) (fs0 : List Face) (r : ℝ) (n : ℕ) (d : MeshData),
      get_base_polyhedron s = .ok (vs0, fs0) →
      PolyhedronGeometry r s n = .ok d →
      (polyPair vs0 fs0 n).2.length = fs0.length * 4 ^ n ∧
      d.indices.length = 3 * (fs0.length * 4 ^ n) := by
  intro s vs0 fs0 r n d hbase hpoly
  have h1 : (polyPair vs0 fs0 n).2.length = fs0.length * 4 ^ n :=
    subdivideN_faces_length _ _ n
  refine ⟨h1, ?_⟩
  have hd : buildPolyhedronMesh r n (vs0, fs0) = d := by
    unfold PolyhedronGeometry at hpoly
    rw [hbase] at hpoly
    simpa [Except.map] using hpoly
  rw [← hd]
  show ((polyPair vs0 fs0 n).2.flatMap (fun f => [f.1, f.2.1, f.2.2])).length = _
  rw [length_flatMap_face, h1]

/-- Witness for C4 at the tetrahedron with two subdivision levels. -/
theorem C4_face_growth_witness :
    get_base_polyhedron "tetrahedron" = .ok (tetraVertices, tetraFaces) ∧
    PolyhedronGeometry 1 "tetrahedron" 2 =
      .ok (buildPolyhedronMesh 1 2 (tetraVertices, tetraFaces)) ∧
    ((polyPair tetraVertices tetraFaces 2).2.length = tetraFaces.length * 4 ^ 2 ∧
      (buildPolyhedronMesh 1 2 (tetraVertices, tetraFaces)).indices.length =
        3 * (tetraFaces.length * 4 ^ 2)) :=
  ⟨rfl, rfl, C4_face_growth "tetrahedron" tetraVertices tetraFaces 1 2 _ rfl rfl⟩

/-! ### C6: unknown solid identifiers -/

/-- C6: polyhedron generation with any solid identifier outside
{tetrahedron, octahedron, cube, icosahedron, dodecahedron} fails with the
invalid-argument error and yields no mesh buffer; there is no silent
fallback to a default solid. -/
theorem C6_unknown_solid_fails :
    ∀ polyhedron_type : String,
      polyhedron_type ∉
        ["tetrahedron", "octahedron", "cube", "icosahedron", "dodecahedron"] →
      ∀ (radius : ℝ) (subdivisions : ℕ),
        PolyhedronGeometry radius polyhedron_type subdivisions =
          Except.error "Polyhedron type must be 'tetrahedron', 'octahedron', 'cube', 'icosahedron', or 'dodecahedron'" := by
  intro s hs r n
  simp only [List.mem_cons, List.not_mem_nil, or_false, not_or] at hs
  obtain ⟨h1, h2, h3, h4, h5⟩ := hs
  unfold PolyhedronGeometry get_base_polyhedron
  rw [if_neg h1, if_neg h2, if_neg h3, if_neg h4, if_neg h5]
  rfl

/-- Witness for C6 at the spec's example identifier `"hexagon"`. -/
theorem C6_unknown_solid_fails_witness :
    ("hexagon" ∉
      ["tetrahedron", "octahedron", "cube", "icosahedron", "dodecahedron"]) ∧
    PolyhedronGeometry 1 "hexagon" 0 =
      Except.error "Polyhedron type must be 'tetrahedron', 'octahedron', 'cube', 'icosahedron', or 'dodecahedron'" :=
  ⟨by decide, C6_unknown_solid_fails "hexagon" (by decide) 1 0⟩

/-! ### C7: spherical UV coordinates stay in the unit square -/

theorem arctan_nonneg_of (t : ℝ) (h : 0 ≤ t) : 0 ≤ Real.arctan t := by
  have := Real.arctan_strictMono.monotone h
  rwa [Real.arctan_zero] at this

theorem arctan_nonpos_of (t : ℝ) (h : t ≤ 0) : Real.arctan t ≤ 0 := by
  have := Real.arctan_strictMono.monotone h
  rwa [Real.arctan_zero] at this

theorem neg_pi_le_atan2 (y x : ℝ) : -Real.pi ≤ atan2 y x := by
  have hpi := Real.pi_pos
  have h1 := Real.neg_pi_div_two_lt_arctan (y / x)
  have h2 := Real.arctan_lt_pi_div_two (y / x)
  unfold atan2
  split_ifs with hx hx' hy hy' hy''
  · linarith
  · linarith
  · -- x < 0, y < 0 : arctan (y / x) - π with y / x > 0
    have hyx : 0 ≤ y / x := le_of_lt (div_pos_of_neg_of_neg (by linarith) hx')
    have := arctan_nonneg_of _ hyx
    linarith
  · linarith
  · linarith
  · linarith

theorem atan2_le_pi (y x : ℝ) : atan2 y x ≤ Real.pi := by
  have hpi := Real.pi_pos
  have h1 := Real.neg_pi_div_two_lt_arctan (y / x)
  have h2 := Real.arctan_lt_pi_div_two (y / x)
  unfold atan2
  split_ifs with hx hx' hy hy' hy''
  · linarith
  · -- x < 0, 0 ≤ y : arctan (y / x) + π with y / x ≤ 0
    have hyx : y / x ≤ 0 := div_nonpos_of_nonneg_of_nonpos hy (le_of_lt hx')
    have := arctan_nonpos_of _ hyx
    linarith
  · linarith
  · linarith
  · linarith
  · linarith

/-- C7: for every input vector, the spherical UV coordinates computed by
`calculate_uv` from its normalization lie in `[0,1] × [0,1]`; moreover the
normalized vector's `y` coordinate lies in `[-1, 1]`, so the embedded
`math.asin` call is within its domain. -/
theorem C7_uv_in_unit_square :
    ∀ w : Vec3,
      (-1 ≤ (normalize w).y ∧ (normalize w).y ≤ 1) ∧
      (0 ≤ (calculate_uv (normalize w)).1 ∧ (calculate_uv (normalize w)).1 ≤ 1) ∧
      (0 ≤ (calculate_uv (normalize w)).2 ∧ (calculate_uv (normalize w)).2 ≤ 1) := by
  intro w
  have hpi := Real.pi_pos
  constructor
  · -- |y| of the normalized vector is at most 1
    have habs : ∀ v : Vec3, |v.y| ≤ vlen v := by
      intro v
      have h1 : v.y * v.y ≤ v.x * v.x + v.y * v.y + v.z * v.z := by nlinarith [sq_nonneg v.x, sq_nonneg v.z]
      calc |v.y| = Real.sqrt (v.y * v.y) := by
            rw [show v.y * v.y = v.y ^ 2 by ring, Real.sqrt_sq_eq_abs]
        _ ≤ Real.sqrt (v.x * v.x + v.y * v.y + v.z * v.z) := Real.sqrt_le_sqrt h1
        _ = vlen v := rfl
    unfold normalize
    split_ifs with hsmall
    · have := habs w
      have h1 : |w.y| ≤ 1 := by
        have : (1e-8 : ℝ) ≤ 1 := by norm_num
        linarith
      exact abs_le.mp h1
    · push_neg at hsmall
      have hpos : 0 < vlen w := lt_of_lt_of_le (by norm_num) hsmall
      have := habs w
      constructor
      · simp only
        rw [neg_le, ← neg_div]
        exact (div_le_one hpos).mpr (by cases abs_le.mp (habs w) with
          | intro hl hr => linarith)
      · simp only
        exact (div_le_one hpos).mpr (by cases abs_le.mp (habs w) with
          | intro hl hr => linarith)
  · have h2pi : (0 : ℝ) < 2 * Real.pi := by linarith
    constructor
    · -- u coordinate
      unfold calculate_uv
      have hlo := neg_pi_le_atan2 (normalize w).x (normalize w).z
      have hhi := atan2_le_pi (normalize w).x (normalize w).z
      have hub : atan2 (normalize w).x (normalize w).z / (2 * Real.pi) ≤ 1 / 2 := by
        rw [div_le_iff₀ h2pi]
        linarith
      have hlb : -(1 / 2 : ℝ) ≤ atan2 (normalize w).x (normalize w).z / (2 * Real.pi) := by
        rw [le_div_iff₀ h2pi]
        linarith
      constructor
      · simp only
        linarith
      · simp only
        linarith
    · -- v coordinate
      unfold calculate_uv
      have hlo := Real.neg_pi_div_two_le_arcsin (normalize w).y
      have hhi := Real.arcsin_le_pi_div_two (normalize w).y
      have hub : Real.arcsin (normalize w).y / Real.pi ≤ 1 / 2 := by
        rw [div_le_iff₀ hpi]
        linarith
      have hlb : -(1 / 2 : ℝ) ≤ Real.arcsin (normalize w).y / Real.pi := by
        rw [le_div_iff₀ hpi]
        linarith
      constructor
      · simp only
        linarith
      · simp only
        linarith

/-! ### C10 and C8: `apply_mat` -/

/-- C10: applying a matrix whose upper-left 3x3 block is non-invertible
transforms all positions but leaves the vertex-normal and face-normal
attributes (and everything else) unchanged, returning normally — the
operation is not atomic with respect to the normal-transform failure. -/
theorem C10_singular_matrix_partial_update :
    ∀ (m : Mat4) (d : MeshData), det3 m = 0 →
      apply_mat m d = { d with v_pos := d.v_pos.map (transformPoint m) } := by
  intro m d h
  unfold apply_mat
  rw [if_pos h]

/-- The all-zero matrix, a concrete singular transform. -/
noncomputable def zeroMat : Mat4 := ⟨0, 0, 0, 0, 0, 0, 0, 0, 0, 0, 0, 0, 0, 0, 0, 0⟩

/-- A small concrete mesh buffer with one position and one vertex normal. -/
noncomputable def bufOne : MeshData :=
  { v_pos := [⟨1, 2, 3⟩], color := [], v_uv := [], v_norm := some [⟨1, 0, 0⟩],
    f_norm := none, indices := [] }

/-- Witness for C10 at the zero matrix. -/
theorem C10_singular_matrix_partial_update_witness :
    det3 zeroMat = 0 ∧
    apply_mat zeroMat bufOne =
      { bufOne with v_pos := bufOne.v_pos.map (transformPoint zeroMat) } :=
  ⟨by norm_num [det3, zeroMat],
    C10_singular_matrix_partial_update zeroMat bufOne (by norm_num [det3, zeroMat])⟩

/-- The identity 4x4 matrix. -/
noncomputable def idMat : Mat4 := ⟨1, 0, 0, 0, 0, 1, 0, 0, 0, 0, 1, 0, 0, 0, 0, 1⟩

theorem transformPoint_id (p : Vec3) : transformPoint idMat p = p := by
  unfold transformPoint idMat
  ext <;> dsimp <;> ring

theorem det3_id : det3 idMat = 1 := by
  norm_num [det3, idMat]

theorem normalTransform_id (n : Vec3) : normalTransform idMat n = n := by
  unfold normalTransform
  rw [det3_id]
  unfold idMat
  ext <;> dsimp <;> ring

/-- A mesh buffer whose stored vertex normal is not unit length. -/
noncomputable def bufLongNormal : MeshData :=
  { v_pos := [⟨1, 2, 3⟩], color := [], v_uv := [], v_norm := some [⟨2, 0, 0⟩],
    f_norm := none, indices := [] }

/-- C8 counterexample: applying the identity matrix does NOT leave every
vertex normal unchanged — the renormalization step rescales the stored
normal `(2,0,0)` to `(1,0,0)`. -/
theorem C8_identity_counterexample :
    (apply_mat idMat bufLongNormal).v_norm ≠ bufLongNormal.v_norm := by
  have hdet : det3 idMat ≠ 0 := by rw [det3_id]; norm_num
  have hlen : vlen ⟨2, 0, 0⟩ = 2 := by
    unfold vlen
    dsimp
    rw [show (2 : ℝ) * 2 + 0 * 0 + 0 * 0 = 2 ^ 2 by ring]
    exact Real.sqrt_sq (by norm_num)
  have hren : renormalize (normalTransform idMat ⟨2, 0, 0⟩) = ⟨1, 0, 0⟩ := by
    rw [normalTransform_id]
    unfold renormalize
    rw [if_pos (by rw [hlen]; norm_num)]
    rw [hlen]
    unfold vdiv
    norm_num
  intro hcontra
  unfold apply_mat at hcontra
  rw [if_neg hdet] at hcontra
  have hcontra' : some [renormalize (normalTransform idMat ⟨2, 0, 0⟩)] =
      some [(⟨2, 0, 0⟩ : Vec3)] := hcontra
  rw [hren] at hcontra'
  have h1 := congrArg (fun o : Option (List Vec3) => ((o.getD []).getD 0 zeroV).x) hcontra'
  simp only [Option.getD_some, List.getD_cons_zero] at h1
  norm_num at h1

/-- C8 amended: applying the identity matrix leaves every position
unchanged, and leaves the vertex-normal and face-normal arrays unchanged
provided every stored normal is unit length or has norm at most `1e-8`
(which holds for the generators' normals); a non-unit normal is instead
rescaled by the renormalization step. -/
theorem C8_identity_round_trip :
    ∀ d : MeshData,
      (apply_mat idMat d).v_pos = d.v_pos ∧
      ((∀ l ∈ d.v_norm, ∀ nv ∈ l, vlen nv = 1 ∨ vlen nv ≤ 1e-8) →
        (apply_mat idMat d).v_norm = d.v_norm) ∧
      ((∀ l ∈ d.f_norm, ∀ nv ∈ l, vlen nv = 1 ∨ vlen nv ≤ 1e-8) →
        (apply_mat idMat d).f_norm = d.f_norm) := by
  have hdet : det3 idMat ≠ 0 := by rw [det3_id]; norm_num
  have hren : ∀ nv : Vec3, vlen nv = 1 ∨ vlen nv ≤ 1e-8 →
      renormalize (normalTransform idMat nv) = nv := by
    intro nv hnv
    rw [normalTransform_id]
    unfold renormalize
    rcases hnv with h1 | h1
    · rw [if_pos (by rw [h1]; norm_num), h1]
      unfold vdiv
      ext <;> simp
    · rw [if_neg (by rw [not_lt]; exact h1)]
  have hpos : ∀ l : List Vec3, l.map (transformPoint idMat) = l := by
    intro l
    have := List.map_congr_left (fun p (_ : p ∈ l) => transformPoint_id p)
    simpa using this
  have hrenl : ∀ l : List Vec3, (∀ nv ∈ l, vlen nv = 1 ∨ vlen nv ≤ 1e-8) →
      l.map (fun n => renormalize (normalTransform idMat n)) = l := by
    intro l hl
    have := List.map_congr_left (fun nv hnv => hren nv (hl nv hnv))
    simpa using this
  intro d
  refine ⟨?_, ?_, ?_⟩
  · unfold apply_mat
    split_ifs
    · simp [hpos]
    · simp [hpos]
  · intro hnorm
    unfold apply_mat
    rw [if_neg hdet]
    cases hv : d.v_norm with
    | none => simp
    | some l =>
      show Option.map _ (some l) = some l
      rw [Option.map_some']
      exact congrArg some (hrenl l (fun nv hnv => hnorm l hv nv hnv))
  · intro hnorm
    unfold apply_mat
    rw [if_neg hdet]
    cases hv : d.f_norm with
    | none => simp
    | some l =>
      show Option.map _ (some l) = some l
      rw [Option.map_some']
      exact congrArg some (hrenl l (fun nv hnv => hnorm l hv nv hnv))

/-- Witness for the amended C8 at a concrete buffer with a unit normal. -/
theorem C8_identity_round_trip_witness :
    (apply_mat idMat bufOne).v_pos = bufOne.v_pos ∧
    (apply_mat idMat bufOne).v_norm = bufOne.v_norm ∧
    (apply_mat idMat bufOne).f_norm = bufOne.f_norm := by
  have hone : vlen ⟨1, 0, 0⟩ = 1 := by
    unfold vlen
    dsimp
    rw [show (1 : ℝ) * 1 + 0 * 0 + 0 * 0 = 1 by ring]
    exact Real.sqrt_one
  have hv : ∀ l ∈ bufOne.v_norm, ∀ nv ∈ l, vlen nv = 1 ∨ vlen nv ≤ 1e-8 := by
    intro l hl nv hnv
    have hl' : l = [⟨1, 0, 0⟩] := by
      have : some [(⟨1, 0, 0⟩ : Vec3)] = some l := hl
      exact (Option.some.injEq _ _ ▸ this).symm
    subst hl'
    have hnv' : nv = ⟨1, 0, 0⟩ := by simpa using hnv
    subst hnv'
    exact Or.inl hone
  have hf : ∀ l ∈ bufOne.f_norm, ∀ nv ∈ l, vlen nv = 1 ∨ vlen nv ≤ 1e-8 := by
    intro l hl
    exact absurd hl (by simp [bufOne])
  exact ⟨(C8_identity_round_trip bufOne).1, (C8_identity_round_trip bufOne).2.1 hv,
    (C8_identity_round_trip bufOne).2.2 hf⟩

/-! ### Lengths and positions in the flattened grid arrays -/

theorem length_flatMap_const {α : Type} (g : ℕ → List α) (c : ℕ)
    (h : ∀ i, (g i).length = c) :
    ∀ n, ((List.range n).flatMap g).length = c * n := by
  intro n
  induction n with
  | zero => simp
  | succ n ih =>
    rw [List.range_succ, List.flatMap_append, List.length_append, ih]
    simp only [List.flatMap_cons, List.flatMap_nil, List.append_nil]
    rw [h n, Nat.mul_succ]

theorem getD_flatMap_const {α : Type} (d : α) (g : ℕ → List α) (c : ℕ)
    (h : ∀ i, (g i).length = c) :
    ∀ n i k, i < n → k < c →
      ((List.range n).flatMap g).getD (c * i + k) d = (g i).getD k d := by
  intro n
  induction n with
  | zero => intro i k hi _; exact absurd hi (Nat.not_lt_zero i)
  | succ n ih =>
    intro i k hi hk
    rw [List.range_succ, List.flatMap_append]
    have hlen : ((List.range n).flatMap g).length = c * n := length_flatMap_const g c h n
    rcases Nat.lt_or_ge i n with hin | hin
    · rw [List.getD_append]
      · exact ih i k hin hk
      · rw [hlen]
        have h1 : c * i + k < c * (i + 1) := by rw [Nat.mul_succ]; omega
        have h2 : c * (i + 1) ≤ c * n := Nat.mul_le_mul_left c hin
        omega
    · have hi' : i = n := by omega
      subst hi'
      rw [List.getD_append_right _ _ _ _ (by rw [hlen]; omega)]
      rw [hlen, Nat.add_sub_cancel_left]
      simp only [List.flatMap_cons, List.flatMap_nil, List.append_nil]

theorem getD_range_map {α : Type} (d : α) (g : ℕ → α) (w j : ℕ) (hj : j < w) :
    ((List.range w).map g).getD j d = g j := by
  rw [List.getD_eq_getElem _ _ (by simpa using hj)]
  simp

theorem paramPositions_length (P : ParamInput) :
    (paramPositions P).length = (P.v_segments + 1) * (P.u_segments + 1) := by
  unfold paramPositions
  refine length_flatMap_const _ _ (fun i => ?_) _
  simp

theorem paramUVs_length (P : ParamInput) :
    (paramUVs P).length = (P.v_segments + 1) * (P.u_segments + 1) := by
  unfold paramUVs
  refine length_flatMap_const _ _ (fun i => ?_) _
  simp

theorem paramColors_length (P : ParamInput) :
    (paramColors P).length = (P.v_segments + 1) * (P.u_segments + 1) := by
  unfold paramColors
  refine length_flatMap_const _ _ (fun i => ?_) _
  simp

theorem paramVertexNormals_length (P : ParamInput) :
    (paramVertexNormals P).length = (P.v_segments + 1) * (P.u_segments + 1) := by
  unfold paramVertexNormals
  refine length_flatMap_const _ _ (fun i => ?_) _
  simp

theorem paramFaceNormals_length (P : ParamInput) :
    (paramFaceNormals P).length = 6 * P.v_segments * P.u_segments := by
  unfold paramFaceNormals
  rw [show 6 * P.v_segments * P.u_segments = (6 * P.v_segments) * P.u_segments from rfl]
  refine length_flatMap_const _ _ (fun i => ?_) _
  exact length_flatMap_const _ _ (fun _ => by simp) _

theorem paramIndices_length (u v : ℕ) :
    (paramIndices u v).length = 6 * v * u := by
  unfold paramIndices
  rw [show 6 * v * u = (6 * v) * u from rfl]
  refine length_flatMap_const _ _ (fun i => ?_) _
  exact length_flatMap_const _ _ (fun _ => by simp) _

theorem paramIndices_bound (u v : ℕ) :
    ∀ i ∈ paramIndices u v, i < (v + 1) * (u + 1) := by
  intro ix hix
  unfold paramIndices at hix
  rw [List.mem_flatMap] at hix
  obtain ⟨i, hi, hix⟩ := hix
  rw [List.mem_range] at hi
  rw [List.mem_flatMap] at hix
  obtain ⟨j, hj, hix⟩ := hix
  rw [List.mem_range] at hj
  have key : ∀ p q, p ≤ u → q ≤ v → p * (v + 1) + q < (v + 1) * (u + 1) := by
    intro p q hp hq
    have h1 : p * (v + 1) + q < (p + 1) * (v + 1) := by
      rw [Nat.succ_mul]
      omega
    have h2 : (p + 1) * (v + 1) ≤ (u + 1) * (v + 1) :=
      Nat.mul_le_mul_right (v + 1) (by omega)
    calc p * (v + 1) + q < (p + 1) * (v + 1) := h1
      _ ≤ (u + 1) * (v + 1) := h2
      _ = (v + 1) * (u + 1) := Nat.mul_comm _ _
  simp only [List.mem_cons, List.not_mem_nil, or_false] at hix
  rcases hix with rfl | rfl | rfl | rfl | rfl | rfl
  · exact key i j (by omega) (by omega)
  · exact key (i + 1) j (by omega) (by omega)
  · exact key (i + 1) (j + 1) (by omega) (by omega)
  · exact key i j (by omega) (by omega)
  · exact key (i + 1) (j + 1) (by omega) (by omega)
  · exact key i (j + 1) (by omega) (by omega)

/-! ### Lengths and index bounds in the polyhedron pipeline -/

theorem calculate_vertex_normals_length (vertices : List Vec3) (faces : List Face) :
    (calculate_vertex_normals vertices faces).length = vertices.length := by
  unfold calculate_vertex_normals
  simp

theorem polyVertexColors_length (numVertices : ℕ) (faces : List Face) :
    (polyVertexColors numVertices faces).length = numVertices := by
  unfold polyVertexColors
  simp

/-- One pass of subdivision keeps all face indices in range of the new
vertex list. -/
theorem subdivide_faces_bounds (vertices : List Vec3) (faces : List Face)
    (h : ∀ f ∈ faces,
      f.1 < vertices.length ∧ f.2.1 < vertices.length ∧ f.2.2 < vertices.length) :
    ∀ g ∈ (subdivide_faces vertices faces).2,
      g.1 < (subdivide_faces vertices faces).1.length ∧
      g.2.1 < (subdivide_faces vertices faces).1.length ∧
      g.2.2 < (subdivide_faces vertices faces).1.length :=
  subAux_bounds vertices faces (vertices, []) (stInv_init vertices) h

/-- All subdivision levels keep all face indices in range. -/
theorem subdivideN_bounds (vertices : List Vec3) (faces : List Face)
    (h : ∀ f ∈ faces,
      f.1 < vertices.length ∧ f.2.1 < vertices.length ∧ f.2.2 < vertices.length) :
    ∀ n, ∀ g ∈ (subdivideN vertices faces n).2,
      g.1 < (subdivideN vertices faces n).1.length ∧
      g.2.1 < (subdivideN vertices faces n).1.length ∧
      g.2.2 < (subdivideN vertices faces n).1.length := by
  intro n
  induction n with
  | zero => exact h
  | succ n ih =>
    exact subdivide_faces_bounds (subdivideN vertices faces n).1
      (subdivideN vertices faces n).2 ih

/-- Case analysis on a successful base-polyhedron lookup: the result is one
of the five catalog entries. -/
theorem get_base_cases (s : String) (vs0 : List Vec3) (fs0 : List Face)
    (h : get_base_polyhedron s = .ok (vs0, fs0)) :
    (vs0 = tetraVertices ∧ fs0 = tetraFaces) ∨
    (vs0 = octaVertices ∧ fs0 = octaFaces) ∨
    (vs0 = cubeVertices ∧ fs0 = cubeFaces) ∨
    (vs0 = icosaVertices ∧ fs0 = icosaFaces) ∨
    (vs0 = dodecaVertices ∧ fs0 = dodecaFaces) := by
  unfold get_base_polyhedron at h
  split_ifs at h <;>
    simp only [Except.ok.injEq, Prod.mk.injEq] at h
  · exact Or.inl ⟨h.1.symm, h.2.symm⟩
  · exact Or.inr (Or.inl ⟨h.1.symm, h.2.symm⟩)
  · exact Or.inr (Or.inr (Or.inl ⟨h.1.symm, h.2.symm⟩))
  · exact Or.inr (Or.inr (Or.inr (Or.inl ⟨h.1.symm, h.2.symm⟩)))
  · exact Or.inr (Or.inr (Or.inr (Or.inr ⟨h.1.symm, h.2.symm⟩)))

/-- The base face tables only reference valid base vertices. -/
theorem base_faces_bound (s : String) (vs0 : List Vec3) (fs0 : List Face)
    (h : get_base_polyhedron s = .ok (vs0, fs0)) :
    ∀ f ∈ fs0, f.1 < vs0.length ∧ f.2.1 < vs0.length ∧ f.2.2 < vs0.length := by
  rcases get_base_cases s vs0 fs0 h with ⟨rfl, rfl⟩ | ⟨rfl, rfl⟩ | ⟨rfl, rfl⟩ |
    ⟨rfl, rfl⟩ | ⟨rfl, rfl⟩
  · decide
  · decide
  · decide
  · decide
  · decide

/-- The parallel-array invariant claimed by the spec for a mesh buffer:
every attribute array has the vertex count of the position array, and every
index references a valid position. -/
def sameLengthBuffer (d : MeshData) : Prop :=
  d.color.length = d.v_pos.length ∧
  d.v_uv.length = d.v_pos.length ∧
  (∀ l ∈ d.v_norm, l.length = d.v_pos.length) ∧
  (∀ l ∈ d.f_norm, l.length = d.v_pos.length) ∧
  (∀ i ∈ d.indices, i < d.v_pos.length)

/-- A concrete 1x1 parametric grid over a flat surface. -/
noncomputable def Pflat : ParamInput :=
  ⟨0, 1, 1, 0, 1, 1, fun u v => ⟨u, v, 0⟩⟩

/-- C1 counterexample: for parametric generation the claimed invariant
fails — the stored face-normal array has one entry per triangle corner
(6 here), not one per vertex (4 here). -/
theorem C1_counterexample_parametric :
    ¬ sameLengthBuffer (ParametricGeometry Pflat) := by
  intro h
  have hf := h.2.2.2.1 (paramFaceNormals Pflat) rfl
  have h1 : (paramFaceNormals Pflat).length = 6 := by
    rw [paramFaceNormals_length]
    norm_num [Pflat]
  have h2 : (ParametricGeometry Pflat).v_pos.length = 4 := by
    show (paramPositions Pflat).length = 4
    rw [paramPositions_length]
    norm_num [Pflat]
  rw [h1, h2] at hf
  norm_num at hf

/-- C1 (amended): for polyhedron generation all five attribute arrays share
the vertex count and all indices are valid; for parametric generation the
position, color, uv and vertex-normal arrays share the vertex count and all
indices are valid, but the face-normal array instead has the length of the
index array (one entry per triangle corner). -/
theorem C1_parallel_arrays :
    (∀ (r : ℝ) (s : String) (n : ℕ) (d : MeshData),
      PolyhedronGeometry r s n = .ok d → sameLengthBuffer d) ∧
    (∀ P : ParamInput,
      (ParametricGeometry P).color.length = (ParametricGeometry P).v_pos.length ∧
      (ParametricGeometry P).v_uv.length = (ParametricGeometry P).v_pos.length ∧
      (∀ l ∈ (ParametricGeometry P).v_norm,
        l.length = (ParametricGeometry P).v_pos.length) ∧
      (∀ i ∈ (ParametricGeometry P).indices, i < (ParametricGeometry P).v_pos.length) ∧
      (∀ l ∈ (ParametricGeometry P).f_norm,
        l.length = (ParametricGeometry P).indices.length)) := by
  constructor
  · intro r s n d h
    unfold PolyhedronGeometry at h
    cases hb : get_base_polyhedron s with
    | error e =>
      rw [hb] at h
      exact absurd h (by simp [Except.map])
    | ok base =>
      rw [hb] at h
      simp only [Except.map, Except.ok.injEq] at h
      subst h
      obtain ⟨vs0, fs0⟩ := base
      have hbounds := base_faces_bound s vs0 fs0 hb
      have hb2 : ∀ f ∈ fs0, f.1 < (vs0.map normalize).length ∧
          f.2.1 < (vs0.map normalize).length ∧ f.2.2 < (vs0.map normalize).length := by
        rw [List.length_map]
        exact hbounds
      have hNb := subdivideN_bounds (vs0.map normalize) fs0 hb2 n
      refine ⟨?_, ?_, ?_, ?_, ?_⟩
      · show (polyVertexColors _ _).length = _
        rw [polyVertexColors_length]
        rfl
      · show (List.map _ _).length = _
        rw [List.length_map]
        rfl
      · intro l hl
        have hl' : calculate_vertex_normals
            ((polyPair vs0 fs0 n).1.map (fun v => ⟨r * v.x, r * v.y, r * v.z⟩))
            (polyPair vs0 fs0 n).2 = l := by
          have : some (calculate_vertex_normals
              ((polyPair vs0 fs0 n).1.map (fun v => ⟨r * v.x, r * v.y, r * v.z⟩))
              (polyPair vs0 fs0 n).2) = some l := hl
          exact Option.some.injEq _ _ ▸ this
        rw [← hl']
        show _ = (List.map _ _).length
        rw [calculate_vertex_normals_length]
      · intro l hl
        have hl' : calculate_vertex_normals
            ((polyPair vs0 fs0 n).1.map (fun v => ⟨r * v.x, r * v.y, r * v.z⟩))
            (polyPair vs0 fs0 n).2 = l := by
          have : some (calculate_vertex_normals
              ((polyPair vs0 fs0 n).1.map (fun v => ⟨r * v.x, r * v.y, r * v.z⟩))
              (polyPair vs0 fs0 n).2) = some l := hl
          exact Option.some.injEq _ _ ▸ this
        rw [← hl']
        show _ = (List.map _ _).length
        rw [calculate_vertex_normals_length]
      · intro i hi
        have hi' : i ∈ (polyPair vs0 fs0 n).2.flatMap (fun f => [f.1, f.2.1, f.2.2]) := hi
        rw [List.mem_flatMap] at hi'
        obtain ⟨f, hf, hif⟩ := hi'
        have hfb := hNb f hf
        show i < (List.map _ _).length
        rw [List.length_map]
        simp only [List.mem_cons, List.not_mem_nil, or_false] at hif
        rcases hif with rfl | rfl | rfl
        · exact hfb.1
        · exact hfb.2.1
        · exact hfb.2.2
  · intro P
    refine ⟨?_, ?_, ?_, ?_, ?_⟩
    · show (paramColors P).length = (paramPositions P).length
      rw [paramColors_length, paramPositions_length]
    · show (paramUVs P).length = (paramPositions P).length
      rw [paramUVs_length, paramPositions_length]
    · intro l hl
      have hl' : paramVertexNormals P = l := by
        have : some (paramVertexNormals P) = some l := hl
        exact Option.some.injEq _ _ ▸ this
      rw [← hl']
      show (paramVertexNormals P).length = (paramPositions P).length
      rw [paramVertexNormals_length, paramPositions_length]
    · intro i hi
      have hi' : i ∈ paramIndices P.u_segments P.v_segments := hi
      show i < (paramPositions P).length
      rw [paramPositions_length]
      exact paramIndices_bound P.u_segments P.v_segments i hi'
    · intro l hl
      have hl' : paramFaceNormals P = l := by
        have : some (paramFaceNormals P) = some l := hl
        exact Option.some.injEq _ _ ▸ this
      rw [← hl']
      show (paramFaceNormals P).length = (paramIndices P.u_segments P.v_segments).length
      rw [paramFaceNormals_length, paramIndices_length]

/-- Witness for the amended C1 at the unsubdivided cube. -/
theorem C1_parallel_arrays_witness :
    PolyhedronGeometry 1 "cube" 0 = .ok (buildPolyhedronMesh 1 0 (cubeVertices, cubeFaces)) ∧
    sameLengthBuffer (buildPolyhedronMesh 1 0 (cubeVertices, cubeFaces)) :=
  ⟨rfl, C1_parallel_arrays.1 1 "cube" 0 _ rfl⟩

/-! ### C9: the stored face-normal attribute -/

theorem length_flatMap_faceKeys (faces : List Face) :
    (faces.flatMap faceKeys).length = 3 * faces.length := by
  induction faces with
  | nil => simp
  | cons f rest ih =>
    simp only [List.flatMap_cons, List.length_append, ih, faceKeys]
    simp
    ring

theorem subdivide_faces_verts_le (vs : List Vec3) (fs : List Face) :
    (subdivide_faces vs fs).1.length ≤ vs.length + 3 * fs.length := by
  rw [subdivide_faces_vertex_count]
  have h1 : (fs.flatMap faceKeys).toFinset.card ≤ (fs.flatMap faceKeys).length :=
    (fs.flatMap faceKeys).toFinset_card_le
  have h2 := length_flatMap_faceKeys fs
  omega

/-- The vertex count always stays strictly below three times the face
count, at every subdivision level, when it does for the base solid. -/
theorem polyPair_verts_lt (vs0 : List Vec3) (fs0 : List Face)
    (h0 : vs0.length < 3 * fs0.length) :
    ∀ n, (polyPair vs0 fs0 n).1.length < 3 * (polyPair vs0 fs0 n).2.length := by
  intro n
  induction n with
  | zero =>
    show (vs0.map normalize).length < 3 * fs0.length
    rw [List.length_map]
    exact h0
  | succ n ih =>
    show (subdivide_faces (polyPair vs0 fs0 n).1 (polyPair vs0 fs0 n).2).1.length <
      3 * (subdivide_faces (polyPair vs0 fs0 n).1 (polyPair vs0 fs0 n).2).2.length
    have hle := subdivide_faces_verts_le (polyPair vs0 fs0 n).1 (polyPair vs0 fs0 n).2
    rw [subdivide_faces_length]
    omega

theorem expanded_face_normals_length (vertices : List Vec3) (faces : List Face) :
    (expanded_face_normals vertices faces).length = 3 * faces.length := by
  unfold expanded_face_normals
  induction faces with
  | nil => simp
  | cons f rest ih =>
    simp only [List.flatMap_cons, List.length_append, ih]
    simp
    ring

/-- C9: in every generated polyhedron mesh the stored `f_norm` attribute is
the very vertex-normal array stored as `v_norm`; the separately computed
outward-corrected per-face normals, expanded per vertex-of-face, are never
the stored array (their length differs at every subdivision level). -/
theorem C9_fnorm_is_vnorm :
    ∀ (r : ℝ) (s : String) (n : ℕ) (vs0 : List Vec3) (fs0 : List Face),
      get_base_polyhedron s = .ok (vs0, fs0) →
      (buildPolyhedronMesh r n (vs0, fs0)).f_norm =
        (buildPolyhedronMesh r n (vs0, fs0)).v_norm ∧
      (buildPolyhedronMesh r n (vs0, fs0)).f_norm ≠
        some (expanded_face_normals (buildPolyhedronMesh r n (vs0, fs0)).v_pos
          (polyPair vs0 fs0 n).2) := by
  intro r s n vs0 fs0 hb
  refine ⟨rfl, ?_⟩
  intro hcontra
  have h0 : vs0.length < 3 * fs0.length := by
    rcases get_base_cases s vs0 fs0 hb with ⟨rfl, rfl⟩ | ⟨rfl, rfl⟩ | ⟨rfl, rfl⟩ |
      ⟨rfl, rfl⟩ | ⟨rfl, rfl⟩
    · decide
    · decide
    · decide
    · decide
    · decide
  have hvf := polyPair_verts_lt vs0 fs0 h0 n
  have hlen := congrArg (fun o : Option (List Vec3) => (o.getD []).length) hcontra
  have hlen' : (calculate_vertex_normals
      ((polyPair vs0 fs0 n).1.map (fun v => ⟨r * v.x, r * v.y, r * v.z⟩))
      (polyPair vs0 fs0 n).2).length =
      (expanded_face_normals (buildPolyhedronMesh r n (vs0, fs0)).v_pos
        (polyPair vs0 fs0 n).2).length := hlen
  rw [calculate_vertex_normals_length, expanded_face_normals_length,
    List.length_map] at hlen'
  omega

/-- Witness for C9 at the once-subdivided octahedron. -/
theorem C9_fnorm_is_vnorm_witness :
    get_base_polyhedron "octahedron" = .ok (octaVertices, octaFaces) ∧
    ((buildPolyhedronMesh 1 1 (octaVertices, octaFaces)).f_norm =
        (buildPolyhedronMesh 1 1 (octaVertices, octaFaces)).v_norm ∧
      (buildPolyhedronMesh 1 1 (octaVertices, octaFaces)).f_norm ≠
        some (expanded_face_normals (buildPolyhedronMesh 1 1 (octaVertices, octaFaces)).v_pos
          (polyPair octaVertices octaFaces 1).2)) :=
  ⟨rfl, C9_fnorm_is_vnorm 1 "octahedron" 1 octaVertices octaFaces rfl⟩

/-! ### C5: which vertices the parametric face normals are computed from -/

theorem paramFaceNormals_getD (P : ParamInput) (i j k : ℕ)
    (hi : i < P.u_segments) (hj : j < P.v_segments) (hk : k < 6) :
    (paramFaceNormals P).getD ((6 * P.v_segments) * i + (6 * j + k)) zeroV =
      quadNormal P i j := by
  unfold paramFaceNormals
  rw [getD_flatMap_const zeroV _ (6 * P.v_segments)
    (fun i' => by
      refine length_flatMap_const _ 6 (fun j' => by simp) _)
    P.u_segments i (6 * j + k) hi (by omega)]
  rw [getD_flatMap_const zeroV _ 6 (fun j' => by simp) P.v_segments j k hj hk]
  interval_cases k <;> rfl

theorem paramIndices_getD (u v i j k : ℕ) (hi : i < u) (hj : j < v) (hk : k < 6) :
    (paramIndices u v).getD ((6 * v) * i + (6 * j + k)) 0 =
      [i * (v + 1) + j, (i + 1) * (v + 1) + j, (i + 1) * (v + 1) + (j + 1),
       i * (v + 1) + j, (i + 1) * (v + 1) + (j + 1), i * (v + 1) + (j + 1)].getD k 0 := by
  unfold paramIndices
  rw [getD_flatMap_const 0 _ (6 * v)
    (fun i' => by
      refine length_flatMap_const _ 6 (fun j' => by simp) _)
    u i (6 * j + k) hi (by omega)]
  rw [getD_flatMap_const 0 _ 6 (fun j' => by simp) v j k hj hk]

theorem paramPositions_getD (P : ParamInput) (i j : ℕ) (hi : i < P.u_segments + 1)
    (hj : j < P.v_segments + 1) :
    (paramPositions P).getD ((P.v_segments + 1) * i + j) zeroV = gridPos P i j := by
  unfold paramPositions
  rw [getD_flatMap_const zeroV _ (P.v_segments + 1) (fun i' => by simp)
    (P.u_segments + 1) i j hi hj]
  exact getD_range_map zeroV _ _ j hj

/-- C5 (amended): for every grid cell `(i, j)` of a parametric surface, the
face normal stored for every corner of BOTH of its triangles is the single
quad normal computed from the realized grid corners `(i,j)`, `(i+1,j)`,
`(i+1,j+1)` — which are exactly the first triangle's own three vertices
`(i0, i1, i2)`; the second triangle `(i0, i2, i3)` shares that normal rather
than receiving one computed from its own three vertices. -/
theorem C5_face_normal_shared_per_quad :
    ∀ (P : ParamInput) (i j k : ℕ), i < P.u_segments → j < P.v_segments → k < 6 →
      (paramFaceNormals P).getD ((6 * P.v_segments) * i + (6 * j + k)) zeroV =
        quadNormal P i j ∧
      quadNormal P i j = calculate_face_normal
        ((paramPositions P).getD ((paramIndices P.u_segments P.v_segments).getD
          ((6 * P.v_segments) * i + (6 * j + 0)) 0) zeroV)
        ((paramPositions P).getD ((paramIndices P.u_segments P.v_segments).getD
          ((6 * P.v_segments) * i + (6 * j + 1)) 0) zeroV)
        ((paramPositions P).getD ((paramIndices P.u_segments P.v_segments).getD
          ((6 * P.v_segments) * i + (6 * j + 2)) 0) zeroV) := by
  intro P i j k hi hj hk
  refine ⟨paramFaceNormals_getD P i j k hi hj hk, ?_⟩
  rw [paramIndices_getD _ _ _ _ 0 hi hj (by norm_num),
    paramIndices_getD _ _ _ _ 1 hi hj (by norm_num),
    paramIndices_getD _ _ _ _ 2 hi hj (by norm_num)]
  simp only [List.getD_cons_zero, List.getD_cons_succ]
  rw [show i * (P.v_segments + 1) + j = (P.v_segments + 1) * i + j from by ring,
    show (i + 1) * (P.v_segments + 1) + j = (P.v_segments + 1) * (i + 1) + j from by ring,
    show (i + 1) * (P.v_segments + 1) + (j + 1) =
      (P.v_segments + 1) * (i + 1) + (j + 1) from by ring]
  rw [paramPositions_getD P i j (by omega) (by omega),
    paramPositions_getD P (i + 1) j (by omega) (by omega),
    paramPositions_getD P (i + 1) (j + 1) (by omega) (by omega)]
  rfl

/-- A concrete 1x1 parametric grid over a non-planar (skew) surface. -/
noncomputable def Pskew : ParamInput :=
  ⟨0, 1, 1, 0, 1, 1, fun u v => ⟨u, v * (1 - u), v⟩⟩

/-- Witness for the amended C5 at the skew surface's only grid cell. -/
theorem C5_face_normal_shared_per_quad_witness :
    (0 < Pskew.u_segments ∧ 0 < Pskew.v_segments ∧ (0 : ℕ) < 6) ∧
    ((paramFaceNormals Pskew).getD ((6 * Pskew.v_segments) * 0 + (6 * 0 + 0)) zeroV =
        quadNormal Pskew 0 0 ∧
      quadNormal Pskew 0 0 = calculate_face_normal
        ((paramPositions Pskew).getD ((paramIndices Pskew.u_segments Pskew.v_segments).getD
          ((6 * Pskew.v_segments) * 0 + (6 * 0 + 0)) 0) zeroV)
        ((paramPositions Pskew).getD ((paramIndices Pskew.u_segments Pskew.v_segments).getD
          ((6 * Pskew.v_segments) * 0 + (6 * 0 + 1)) 0) zeroV)
        ((paramPositions Pskew).getD ((paramIndices Pskew.u_segments Pskew.v_segments).getD
          ((6 * Pskew.v_segments) * 0 + (6 * 0 + 2)) 0) zeroV)) :=
  ⟨⟨by decide, by decide, by decide⟩,
    C5_face_normal_shared_per_quad Pskew 0 0 0 (by decide) (by decide) (by decide)⟩

/-- The claim as stated: the face normal stored for each emitted triangle is
computed from that same triangle's own three realized (indexed) vertex
positions. -/
def fnormFromOwnVertices (d : MeshData) : Prop :=
  ∀ t fl, d.f_norm = some fl → 3 * t + 2 < d.indices.length →
    fl.getD (3 * t) zeroV = calculate_face_normal
      (d.v_pos.getD (d.indices.getD (3 * t) 0) zeroV)
      (d.v_pos.getD (d.indices.getD (3 * t + 1) 0) zeroV)
      (d.v_pos.getD (d.indices.getD (3 * t + 2) 0) zeroV)

/-- Evaluation of the sampled grid of the skew surface. -/
theorem gridPos_Pskew (i j : ℕ) :
    gridPos Pskew i j = ⟨(i : ℝ), (j : ℝ) * (1 - (i : ℝ)), (j : ℝ)⟩ := by
  unfold gridPos ParamInput.u_step ParamInput.v_step Pskew
  norm_num

theorem cfn_first : calculate_face_normal ⟨0, 0, 0⟩ ⟨1, 0, 0⟩ ⟨1, 0, 1⟩ = ⟨0, -1, 0⟩ := by
  have e1 : cross_product (vsub ⟨1, 0, 0⟩ ⟨0, 0, 0⟩) (vsub ⟨1, 0, 1⟩ ⟨0, 0, 0⟩) =
      (⟨0, -1, 0⟩ : Vec3) := by
    unfold cross_product vsub
    ext <;> dsimp <;> norm_num
  have e2 : vlen (⟨0, -1, 0⟩ : Vec3) = 1 := by
    unfold vlen
    dsimp
    rw [show (0 : ℝ) * 0 + (-1) * (-1) + 0 * 0 = 1 by ring]
    exact Real.sqrt_one
  show (if vlen (cross_product (vsub ⟨1, 0, 0⟩ ⟨0, 0, 0⟩) (vsub ⟨1, 0, 1⟩ ⟨0, 0, 0⟩)) < 1e-8
    then (⟨0, 1, 0⟩ : Vec3)
    else vdiv (cross_product (vsub ⟨1, 0, 0⟩ ⟨0, 0, 0⟩) (vsub ⟨1, 0, 1⟩ ⟨0, 0, 0⟩))
      (vlen (cross_product (vsub ⟨1, 0, 0⟩ ⟨0, 0, 0⟩) (vsub ⟨1, 0, 1⟩ ⟨0, 0, 0⟩)))) =
    (⟨0, -1, 0⟩ : Vec3)
  rw [e1, e2, if_neg (by norm_num)]
  unfold vdiv
  ext <;> dsimp <;> norm_num

theorem sqrt_three_ge_one : (1 : ℝ) ≤ Real.sqrt 3 := by
  rw [show (1 : ℝ) = Real.sqrt 1 from Real.sqrt_one.symm]
  exact Real.sqrt_le_sqrt (by norm_num)

theorem cfn_second_x :
    (calculate_face_normal ⟨0, 0, 0⟩ ⟨1, 0, 1⟩ ⟨0, 1, 1⟩).x = -1 / Real.sqrt 3 := by
  have e3 : cross_product (vsub ⟨1, 0, 1⟩ ⟨0, 0, 0⟩) (vsub ⟨0, 1, 1⟩ ⟨0, 0, 0⟩) =
      (⟨-1, -1, 1⟩ : Vec3) := by
    unfold cross_product vsub
    ext <;> dsimp <;> norm_num
  have e4 : vlen (⟨-1, -1, 1⟩ : Vec3) = Real.sqrt 3 := by
    unfold vlen
    dsimp
    norm_num
  show (if vlen (cross_product (vsub ⟨1, 0, 1⟩ ⟨0, 0, 0⟩) (vsub ⟨0, 1, 1⟩ ⟨0, 0, 0⟩)) < 1e-8
    then (⟨0, 1, 0⟩ : Vec3)
    else vdiv (cross_product (vsub ⟨1, 0, 1⟩ ⟨0, 0, 0⟩) (vsub ⟨0, 1, 1⟩ ⟨0, 0, 0⟩))
      (vlen (cross_product (vsub ⟨1, 0, 1⟩ ⟨0, 0, 0⟩) (vsub ⟨0, 1, 1⟩ ⟨0, 0, 0⟩)))).x =
    -1 / Real.sqrt 3
  rw [e3, e4, if_neg (by rw [not_lt]; exact le_trans (by norm_num) sqrt_three_ge_one)]
  rfl

/-- C5 counterexample: for the skew surface, the second triangle of the grid
cell carries the quad normal `(0,-1,0)`, not the normal of its own three
vertices, whose x-coordinate is `-1/sqrt 3 ≠ 0`. -/
theorem C5_counterexample_skew : ¬ fnormFromOwnVertices (ParametricGeometry Pskew) := by
  intro h
  have hlen : 3 * 1 + 2 < (ParametricGeometry Pskew).indices.length := by decide
  have h1 := h 1 (paramFaceNormals Pskew) rfl hlen
  have hi3 : (ParametricGeometry Pskew).indices.getD (3 * 1) 0 = 0 := by decide
  have hi4 : (ParametricGeometry Pskew).indices.getD (3 * 1 + 1) 0 = 3 := by decide
  have hi5 : (ParametricGeometry Pskew).indices.getD (3 * 1 + 2) 0 = 1 := by decide
  rw [hi3, hi4, hi5] at h1
  -- the three vertex positions of the second triangle
  have hp0 : (paramPositions Pskew).getD 0 zeroV = (⟨0, 0, 0⟩ : Vec3) := by
    have hp := paramPositions_getD Pskew 0 0 (by decide) (by decide)
    rw [show (Pskew.v_segments + 1) * 0 + 0 = 0 from by decide] at hp
    rw [hp, gridPos_Pskew]
    ext <;> dsimp <;> norm_num
  have hp3 : (paramPositions Pskew).getD 3 zeroV = (⟨1, 0, 1⟩ : Vec3) := by
    have hp := paramPositions_getD Pskew 1 1 (by decide) (by decide)
    rw [show (Pskew.v_segments + 1) * 1 + 1 = 3 from by decide] at hp
    rw [hp, gridPos_Pskew]
    ext <;> dsimp <;> norm_num
  have hp1 : (paramPositions Pskew).getD 1 zeroV = (⟨0, 1, 1⟩ : Vec3) := by
    have hp := paramPositions_getD Pskew 0 1 (by decide) (by decide)
    rw [show (Pskew.v_segments + 1) * 0 + 1 = 1 from by decide] at hp
    rw [hp, gridPos_Pskew]
    ext <;> dsimp <;> norm_num
  -- the stored normal of the second triangle is the quad normal
  have hL : (paramFaceNormals Pskew).getD (3 * 1) zeroV = (⟨0, -1, 0⟩ : Vec3) := by
    have hf := paramFaceNormals_getD Pskew 0 0 3 (by decide) (by decide) (by decide)
    rw [show (6 * Pskew.v_segments) * 0 + (6 * 0 + 3) = 3 * 1 from by decide] at hf
    rw [hf]
    unfold quadNormal
    rw [gridPos_Pskew 0 0, gridPos_Pskew 1 0, gridPos_Pskew 1 1]
    rw [show (⟨((0 : ℕ) : ℝ), ((0 : ℕ) : ℝ) * (1 - ((0 : ℕ) : ℝ)), ((0 : ℕ) : ℝ)⟩ : Vec3) =
        (⟨0, 0, 0⟩ : Vec3) from by ext <;> dsimp <;> norm_num,
      show (⟨((1 : ℕ) : ℝ), ((0 : ℕ) : ℝ) * (1 - ((1 : ℕ) : ℝ)), ((0 : ℕ) : ℝ)⟩ : Vec3) =
        (⟨1, 0, 0⟩ : Vec3) from by ext <;> dsimp <;> norm_num,
      show (⟨((1 : ℕ) : ℝ), ((1 : ℕ) : ℝ) * (1 - ((1 : ℕ) : ℝ)), ((1 : ℕ) : ℝ)⟩ : Vec3) =
        (⟨1, 0, 1⟩ : Vec3) from by ext <;> dsimp <;> norm_num]
    exact cfn_first
  have hL' : (paramFaceNormals Pskew).getD (3 * 1) zeroV = (⟨0, -1, 0⟩ : Vec3) := hL
  rw [hL'] at h1
  have hp0' : (ParametricGeometry Pskew).v_pos.getD 0 zeroV = (⟨0, 0, 0⟩ : Vec3) := hp0
  have hp3' : (ParametricGeometry Pskew).v_pos.getD 3 zeroV = (⟨1, 0, 1⟩ : Vec3) := hp3
  have hp1' : (ParametricGeometry Pskew).v_pos.getD 1 zeroV = (⟨0, 1, 1⟩ : Vec3) := hp1
  rw [hp0', hp3', hp1'] at h1
  have hx := congrArg Vec3.x h1
  rw [cfn_second_x] at hx
  have hne : (-1 : ℝ) / Real.sqrt 3 ≠ 0 :=
    div_ne_zero (by norm_num)
      (ne_of_gt (lt_of_lt_of_le one_pos sqrt_three_ge_one))
  exact hne hx.symm

end Mesh
